import Mathlib

/-
  Verification of the heuristic document-structure engine of the
  Adobe-Hackathon-25 repository (round1b/src/extractor.py and
  round1b/src/relevance.py), as a shallow embedding in Lean.

  Modelling conventions:
  * Python strings are Lean String values; every character-level operation of
    the source (lower/strip/split/case tests and the regular expressions) is
    re-implemented below over List Char with ASCII semantics, since all the
    string constants of the source are ASCII.
  * Python float constants appearing in the scoring code are all exact
    multiples of 1/100; confidence values are therefore represented exactly as
    integer hundredths (0.55 becomes 55, 1.0 becomes 100, and so on).  The two
    float divisions of the source are embedded as the equivalent
    cross-multiplied integer comparisons (denominators are positive), so the
    arithmetic is exact.
  * Font sizes, page heights and vertical positions are exact rationals; the
    source only compares these quantities (and takes min/max), never adds
    them, so no rounding model is needed.
  * Python dicts holding heading/candidate records are embedded as structures;
    a dict.get with a default becomes an Option field read with getD when the
    key can genuinely be absent, and a plain field when it is always present.
  * The pdfplumber geometry provider, the OCR engine, the language detector
    and the sentence-embedding model are external collaborators (spec section
    6); they are represented by abstract input data (text lines with font
    attributes, OCR tokens with engine confidences, positioned words on pages,
    an abstract encoder), not re-implemented.
-/

namespace Extractor

/-- ASCII whitespace, the model of the Python str.strip / str.split default
class and of the regex class \s. -/
def wsB (c : Char) : Bool :=
  c = ' ' || c = '\t' || c = '\n' || c = '\r' || c = '\x0b' || c = '\x0c'

/-- ASCII uppercase letter test. -/
def isUpperChar (c : Char) : Bool := 'A' ≤ c && c ≤ 'Z'

/-- ASCII lowercase letter test. -/
def isLowerChar (c : Char) : Bool := 'a' ≤ c && c ≤ 'z'

/-- ASCII letter test (the cased characters of the ASCII fragment). -/
def isLetterChar (c : Char) : Bool := isUpperChar c || isLowerChar c

/-- ASCII digit test, the model of the regex class \d. -/
def isDigitChar (c : Char) : Bool := '0' ≤ c && c ≤ '9'

/-- Word character, the model of the regex class \w (ASCII fragment). -/
def isWordChar (c : Char) : Bool := isLetterChar c || isDigitChar c || c = '_'

/-- ASCII lowercasing of one character (Python str.lower on ASCII). -/
def lowerChar (c : Char) : Char :=
  if isUpperChar c then Char.ofNat (c.toNat + 32) else c

/-- Python str.lower (ASCII). -/
def pyLower (s : String) : String := String.mk (s.data.map lowerChar)

/-- Strip leading and trailing whitespace from a character list. -/
def pyStripL (l : List Char) : List Char :=
  ((l.dropWhile wsB).reverse.dropWhile wsB).reverse

/-- Python str.strip(). -/
def pyStrip (s : String) : String := String.mk (pyStripL s.data)

theorem dropWhile_length_le {α : Type} (p : α → Bool) :
    ∀ l : List α, (l.dropWhile p).length ≤ l.length
  | [] => Nat.le_refl _
  | a :: t => by
      simp only [List.dropWhile]
      split
      · exact Nat.le_trans (dropWhile_length_le p t) (Nat.le_succ _)
      · exact Nat.le_refl _

/-- Accumulator automaton for Python str.split() with no argument: cur is
the current token reversed; tokens are maximal runs of non-whitespace. -/
def pySplitAux : List Char → List Char → List (List Char)
  | [], cur => if cur.isEmpty then [] else [cur.reverse]
  | c :: t, cur =>
    if wsB c then (if cur.isEmpty then pySplitAux t [] else cur.reverse :: pySplitAux t [])
    else pySplitAux t (c :: cur)

/-- Python str.split() with no argument: split on runs of whitespace,
discarding empty pieces. -/
def pySplitL (l : List Char) : List (List Char) := pySplitAux l []

/-- Python str.split() on a String. -/
def pySplitS (s : String) : List String := (pySplitL s.data).map String.mk

/-- Count of occurrences of a character (Python str.count for a one-character
argument). -/
def countCharS (s : String) (c : Char) : Nat := (s.data.filter (fun d => d = c)).length

/-- Boolean list-prefix test on characters. -/
def isPrefixL : List Char → List Char → Bool
  | [], _ => true
  | _ :: _, [] => false
  | a :: as, b :: bs => a = b && isPrefixL as bs

/-- Boolean substring-occurrence test on character lists. -/
def hasSubL (pat : List Char) : List Char → Bool
  | [] => isPrefixL pat []
  | c :: t => isPrefixL pat (c :: t) || hasSubL pat t

/-- Python str.startswith. -/
def pyStartsWith (s p : String) : Bool := isPrefixL p.data s.data

/-- Python str.endswith. -/
def pyEndsWith (s p : String) : Bool := isPrefixL p.data.reverse s.data.reverse

/-- Python membership test: p in s (substring containment). -/
def pyContains (s p : String) : Bool := hasSubL p.data s.data

/-- Python str.startswith with a tuple of alternatives. -/
def pyStartsWithAny (s : String) (ps : List String) : Bool := ps.any (pyStartsWith s)

/-- Python str.endswith with a tuple of alternatives. -/
def pyEndsWithAny (s : String) (ps : List String) : Bool := ps.any (pyEndsWith s)

/-- Model of the Python idiom any(p in s for p in ps). -/
def pyContainsAny (s : String) (ps : List String) : Bool := ps.any (fun p => pyContains s p)

/-- Exact membership of a string in a list of strings (Python: s in [...]). -/
def strIn (s : String) (l : List String) : Bool := l.any (fun t => s = t)

/-- Python str.isupper (ASCII): at least one cased character and every cased
character uppercase. -/
def pyIsUpper (s : String) : Bool :=
  let cased := s.data.filter isLetterChar
  !cased.isEmpty && cased.all isUpperChar

/-- Python str.isdigit (ASCII digits). -/
def pyIsDigitS (s : String) : Bool := !s.data.isEmpty && s.data.all isDigitChar

/-- Helper automaton for Python str.istitle: tracks whether the previous
character was cased and whether any cased character was seen. -/
def pyIsTitleAux : List Char → Bool → Bool → Bool
  | [], _, seen => seen
  | c :: t, prevCased, seen =>
    if isUpperChar c then (if prevCased then false else pyIsTitleAux t true true)
    else if isLowerChar c then (if prevCased then pyIsTitleAux t true true else false)
    else pyIsTitleAux t false seen

/-- Python str.istitle (ASCII): uppercase letters only after uncased
characters, lowercase letters only after cased ones, at least one letter. -/
def pyIsTitle (s : String) : Bool := pyIsTitleAux s.data false false

/-- Python s[:n] slicing on strings (character based). -/
def pyTake (n : Nat) (s : String) : String := String.mk (s.data.take n)

/-- Python sep.join(parts). -/
def pyJoin (sep : String) : List String → String
  | [] => ""
  | [x] => x
  | x :: y :: t => x ++ sep ++ pyJoin sep (y :: t)

/-- Accumulator automaton for Python text.split('. '), the separator used by
the fallback extractor: splits at each leftmost non-overlapping occurrence
of a dot followed by a space, keeping empty pieces (Python str.split with an
explicit separator). -/
def pySplitDotAux : List Char → List Char → List String
  | [], cur => [String.mk cur.reverse]
  | '.' :: ' ' :: t, cur => String.mk cur.reverse :: pySplitDotAux t []
  | c :: t, cur => pySplitDotAux t (c :: cur)

/-- Python text.split('. '), as used by the fallback extractor. -/
def pySplitDot (s : String) : List String := pySplitDotAux s.data []

/-- Matcher for the source regex ^\d+\.\s+[A-Z][a-z] (re.match, case
sensitive; used by _enhanced_pattern_analysis). -/
def matchNumSecUL (l : List Char) : Bool :=
  let ds := l.takeWhile isDigitChar
  if ds.isEmpty then false else
  match l.dropWhile isDigitChar with
  | '.' :: r2 =>
    let r3 := r2.dropWhile wsB
    if (r2.takeWhile wsB).isEmpty then false else
    match r3 with
    | a :: b :: _ => isUpperChar a && isLowerChar b
    | _ => false
  | _ => false

/-- Matcher for the source regex ^\d+\.\s+[A-Za-z] (used by
_is_sentence_fragment and _is_meaningful_heading). -/
def matchNumSecLetter (l : List Char) : Bool :=
  let ds := l.takeWhile isDigitChar
  if ds.isEmpty then false else
  match l.dropWhile isDigitChar with
  | '.' :: r2 =>
    let r3 := r2.dropWhile wsB
    if (r2.takeWhile wsB).isEmpty then false else
    match r3 with
    | a :: _ => isLetterChar a
    | _ => false
  | _ => false

/-- Matcher for the source regex ^\d+\.\s+[A-Z][a-z]+ under re.IGNORECASE:
with the flag both classes admit any letter, and as a prefix match one
repetition of the final class suffices, so the shape is digits, a dot,
whitespace, then two letters. -/
def matchNumSecCI2 (l : List Char) : Bool :=
  let ds := l.takeWhile isDigitChar
  if ds.isEmpty then false else
  match l.dropWhile isDigitChar with
  | '.' :: r2 =>
    let r3 := r2.dropWhile wsB
    if (r2.takeWhile wsB).isEmpty then false else
    match r3 with
    | a :: b :: _ => isLetterChar a && isLetterChar b
    | _ => false
  | _ => false

/-- Matcher for the source regex ^\d+\.\d+\s+[A-Z][a-z] (case sensitive). -/
def matchNumSubUL (l : List Char) : Bool :=
  let ds := l.takeWhile isDigitChar
  if ds.isEmpty then false else
  match l.dropWhile isDigitChar with
  | '.' :: r2 =>
    let ds2 := r2.takeWhile isDigitChar
    if ds2.isEmpty then false else
    let r3 := r2.dropWhile isDigitChar
    let r4 := r3.dropWhile wsB
    if (r3.takeWhile wsB).isEmpty then false else
    match r4 with
    | a :: b :: _ => isUpperChar a && isLowerChar b
    | _ => false
  | _ => false

/-- Matcher for the source regex ^\d+\.\d+\s+[A-Za-z]. -/
def matchNumSubLetter (l : List Char) : Bool :=
  let ds := l.takeWhile isDigitChar
  if ds.isEmpty then false else
  match l.dropWhile isDigitChar with
  | '.' :: r2 =>
    let ds2 := r2.takeWhile isDigitChar
    if ds2.isEmpty then false else
    let r3 := r2.dropWhile isDigitChar
    let r4 := r3.dropWhile wsB
    if (r3.takeWhile wsB).isEmpty then false else
    match r4 with
    | a :: _ => isLetterChar a
    | _ => false
  | _ => false

/-- Matcher for the source regex ^appendix [a-z]: under re.IGNORECASE (the
source also writes it as ^Appendix [A-Z]:, which is the same pattern under
the flag). -/
def matchAppendixCI (l : List Char) : Bool :=
  match l.map lowerChar with
  | 'a' :: 'p' :: 'p' :: 'e' :: 'n' :: 'd' :: 'i' :: 'x' :: ' ' :: x :: ':' :: _ =>
    isLowerChar x
  | _ => false

/-- Roman-numeral character class [ivx] of the phase pattern. -/
def ivxChar (c : Char) : Bool := c = 'i' || c = 'v' || c = 'x'

/-- Matcher for the source regex ^phase [ivx]+: under re.IGNORECASE. -/
def matchPhaseCI (l : List Char) : Bool :=
  match l.map lowerChar with
  | 'p' :: 'h' :: 'a' :: 's' :: 'e' :: ' ' :: r =>
    (!(r.takeWhile ivxChar).isEmpty) &&
      (match r.dropWhile ivxChar with | ':' :: rest => rest.isEmpty | _ => false)
  | _ => false

/-- Automaton for the title-case-colon pattern below: the flag records
whether the scan is inside a word (true) or inside inter-word whitespace
(false); a final colon is accepted only right after a word, at the end. -/
def tcRun : List Char → Bool → Bool
  | [], _ => false
  | c :: t, inWord =>
    if inWord then
      if c = ':' then t.isEmpty
      else if isLetterChar c then tcRun t true
      else if wsB c then tcRun t false
      else false
    else
      if wsB c then tcRun t false
      else if isLetterChar c then tcRun t true
      else false

/-- Matcher for the source regex ^[A-Z][a-z]+(\s+[A-Z][a-z]*)*:$ under
re.IGNORECASE: a first word of at least two letters, further words of at
least one letter separated by whitespace, a final colon at the end. -/
def matchTitleColonCI (l : List Char) : Bool :=
  match l with
  | a :: b :: r => isLetterChar a && isLetterChar b && tcRun r true
  | _ => false

/-- Matcher for the source regex ^\w+ \d{4}\s*-?\s*$ (timeline fragment). -/
def matchTimelineFrag (l : List Char) : Bool :=
  if (l.takeWhile isWordChar).isEmpty then false else
  match l.dropWhile isWordChar with
  | ' ' :: r2 =>
    match r2 with
    | d1 :: d2 :: d3 :: d4 :: r3 =>
      isDigitChar d1 && isDigitChar d2 && isDigitChar d3 && isDigitChar d4 &&
        (match r3.dropWhile wsB with
         | [] => true
         | '-' :: r5 => (r5.dropWhile wsB).isEmpty
         | _ => false)
    | _ => false
  | _ => false

/-- Matcher for the source regex ^\w+\s+\d{1,2},?\s+\d{4} (date shape,
prefix match).  The only regex backtracking point, the one-or-two digit
group, is resolved exactly: a run of three or more digits can never match
because neither the optional comma nor the mandatory whitespace can consume
a digit. -/
def matchDate (l : List Char) : Bool :=
  if (l.takeWhile isWordChar).isEmpty then false else
  let r := l.dropWhile isWordChar
  if (r.takeWhile wsB).isEmpty then false else
  let r2 := r.dropWhile wsB
  let ds := r2.takeWhile isDigitChar
  if ds.length = 1 || ds.length = 2 then
    let r3 := r2.dropWhile isDigitChar
    let r4 := match r3 with | ',' :: t => t | _ => r3
    if (r4.takeWhile wsB).isEmpty then false else
    4 ≤ ((r4.dropWhile wsB).takeWhile isDigitChar).length
  else false

/-- Character class of the source regex ^[\d\$,.\s%\-]+$ (pure
numeric/currency data). -/
def numericJunkChar (c : Char) : Bool :=
  isDigitChar c || c = '$' || c = ',' || c = '.' || wsB c || c = '%' || c = '-'

/-- Matcher for the source regex ^[\d\$,.\s%\-]+$. -/
def matchPureNumeric (l : List Char) : Bool := !l.isEmpty && l.all numericJunkChar

/-- Matcher for the source regex ^[\d\$,.\s%\-\(\)]+$ (the variant of
_breaks_hierarchy_path that also admits parentheses). -/
def matchPureNumericParen (l : List Char) : Bool :=
  !l.isEmpty && l.all (fun c => numericJunkChar c || c = '(' || c = ')')

/-- Matcher for the source regex ^[\d\s\-\.\(\)]+$ (the punctuation/numeric
reject of _is_meaningful_heading). -/
def matchNumDashDotParen (l : List Char) : Bool :=
  !l.isEmpty &&
    l.all (fun c => isDigitChar c || wsB c || c = '-' || c = '.' || c = '(' || c = ')')

/-- Matcher for the source regex ^\d{4}[\s\-] (year/timeline start). -/
def matchYearStart : List Char → Bool
  | d1 :: d2 :: d3 :: d4 :: c :: _ =>
    isDigitChar d1 && isDigitChar d2 && isDigitChar d3 && isDigitChar d4 &&
      (wsB c || c = '-')
  | _ => false

/-- Matcher for the source regex ^page \d+ (applied to lowercased text). -/
def matchPageNum (l : List Char) : Bool :=
  match l with
  | 'p' :: 'a' :: 'g' :: 'e' :: ' ' :: d :: _ => isDigitChar d
  | _ => false

/-- TextLine record produced by the Layout Line Builder
(_get_text_lines_with_fonts): visual line text with aggregated font and
position attributes.  The y coordinate is the grouping key rounded to an
integer in the source; it is kept as a rational here since the source only
compares it. -/
structure TextLine where
  text : String
  avg_size : ℚ
  max_size : ℚ
  left_margin : ℚ
  is_bold : Bool
  y_pos : ℚ
deriving DecidableEq

/-- HeadingCandidate record emitted by the candidate scorer (and by the OCR
fallback).  confidence is in exact hundredths (55 models the float 0.55);
the font_size entry of the source dict is never read downstream and is
omitted; position models x.get('position', 0), the key being absent exactly
for OCR candidates, whose construction therefore stores 0. -/
structure HeadingCandidate where
  text : String
  level : String
  page : Int
  confidence : Int
  position : ℚ
deriving DecidableEq

/-- OutlineItem of the final outline (pydantic model of the source). -/
structure OutlineItem where
  level : String
  text : String
  page : Int
deriving DecidableEq

/-- Font-size thresholds selected per page by the Threshold Calibrator. -/
structure Thresholds where
  h1 : ℚ
  h2 : ℚ
  h3 : ℚ
deriving DecidableEq

/-- Source predicate _is_content_fragment: content fragments that must not
become headings.  The sequence of early returns of the source is the
disjunction of its conditions. -/
def _is_content_fragment (text : String) : Bool :=
  pyStartsWithAny text ["and ", "or ", "but ", "the ", "a ", "an ", "of ", "in ", "to ", "for "] ||
  pyEndsWithAny text [" and", " or", " of", " in", " to", " for", " the", " a"] ||
  (matchTimelineFrag text.data || pyContains (pyLower text) "timeline:") ||
  ((pySplitS text).length < 3 && !(pyEndsWith text ":") && !(pyIsUpper text))

/-- Source predicate _is_well_formed_heading: complete, well-formed heading
shapes rewarded by the scorer.  The section_patterns loop of the source
tries each pattern with re.IGNORECASE and returns True on the first hit,
which is the disjunction below. -/
def _is_well_formed_heading (text : String) : Bool :=
  (pyStartsWithAny text ["What ", "How ", "Why "] && pyEndsWith text "?") ||
  strIn (pyLower text) ["summary", "background", "introduction", "overview", "conclusion"] ||
  matchAppendixCI text.data ||
  matchPhaseCI text.data ||
  matchTitleColonCI text.data ||
  matchNumSecCI2 text.data ||
  (pyStartsWithAny text ["For each ", "For the "] && pyEndsWith text ":")

/-- Source predicate _is_incomplete_heading: incomplete or fragmented text
penalised by the scorer. -/
def _is_incomplete_heading (text : String) : Bool :=
  pyEndsWithAny text [" to", " and", " or", " of", " in", " for", " the", " a", " an"] ||
  pyStartsWithAny text ["to ", "and ", "or ", "of ", "in ", "for "] ||
  (pyContains text "..." || 12 < countCharS text ' ')

/-- Source predicate _is_non_heading: text that is definitely not a heading
(dates, emails, URLs, long sentences, pure numerics, short single tokens). -/
def _is_non_heading (text : String) : Bool :=
  matchDate text.data ||
  (pyContains text "@" && pyContains text ".") ||
  pyStartsWithAny text ["http://", "https://", "www."] ||
  (pyEndsWith text "." && 40 < text.data.length && pyContains text " ") ||
  matchPureNumeric text.data ||
  ((pySplitS text).length = 1 && text.data.length < 8)

/-- Source predicate _is_definitely_not_heading, the enhanced rejection
filter of the candidate scorer. -/
def _is_definitely_not_heading (text : String) : Bool :=
  _is_non_heading text ||
  _is_content_fragment text ||
  ((pySplitS text).length = 1 && text.data.length < 4) ||
  (1 < countCharS text '.' && 60 < text.data.length)

/-- Source function _enhanced_pattern_analysis: priority-ordered textual
pattern table returning a confidence boost (hundredths) and an optional
suggested level.  Every branch mirrors one return of the source, in source
order. -/
def _enhanced_pattern_analysis (text : String) : Int × Option String :=
  let text_lower := pyStrip (pyLower text)
  if pyContainsAny text_lower ["revision history", "table of contents", "acknowledgements",
      "references", "introduction to the foundation", "overview of the foundation"] then
    (90, some "H1")
  else if matchNumSecUL text.data then (90, some "H1")
  else if matchNumSubUL text.data then (80, some "H2")
  else if matchAppendixCI text.data then (80, some "H2")
  else if matchPhaseCI text.data then (70, some "H3")
  else if ["summary", "background", "introduction", "overview", "methodology",
      "conclusion", "timeline", "milestones"].any (fun s => s = text_lower) then
    (80, some "H2")
  else if pyContainsAny text_lower ["intended audience", "career paths", "learning objectives",
      "entry requirements", "structure and course", "keeping it current", "business outcomes",
      "content", "trademarks", "documents and web"] then
    (80, some "H2")
  else if pyStartsWithAny text ["What could", "For each", "For the"] then
    (if pyContains text "Ontario" && (pyContains text "citizen" || pyContains text "student" ||
        pyContains text "library" || pyContains text "government") then
      (60, some "H4")
    else (60, some "H3"))
  else if pyContainsAny text_lower ["business plan", "approach and specific",
      "evaluation and awarding", "milestones", "requirements", "terms of reference"] then
    (70, some "H2")
  else if strIn text_lower ["summary", "background", "timeline", "milestones", "preamble",
      "membership", "chair", "term", "meetings", "acknowledgements", "references"] then
    (80, some "H1")
  else if pyEndsWith text ":" && text.data.length < 80 && 3 < text.data.length then
    (if pyContainsAny text_lower ["funding", "governance", "decision-making", "access",
        "support", "training"] then
      (60, some "H3")
    else (50, some "H3"))
  else if pyIsUpper text && 3 < text.data.length && text.data.length < 60 then (60, some "H2")
  else (0, none)

/-- Font-size band of the enhanced scorer: increment (hundredths) and
tentative level from the page thresholds. -/
def fontBand (size : ℚ) (thr : Thresholds) : Int × String :=
  if thr.h1 ≤ size then (40, "H1")
  else if thr.h2 ≤ size then (30, "H2")
  else if thr.h3 ≤ size then (20, "H3")
  else (10, "H4")

/-- Final additive confidence (hundredths) computed by
_analyze_line_with_enhanced_scoring for a line that survives its early
filters.  The source accumulates these increments sequentially; addition is
reassociated freely. -/
def enhancedConfidence (line : TextLine) (thr : Thresholds) : Int :=
  let text := pyStrip line.text
  (fontBand line.avg_size thr).1
    + (_enhanced_pattern_analysis text).1
    + (if line.is_bold then 20 else 0)
    + (if line.left_margin < 80 then 10 else 0)
    + (if text.data.length < 100 then 10 else 0)
    + (if text.data.length < 50 then 10 else 0)
    + (if _is_well_formed_heading text then 20 else 0)
    + (if _is_incomplete_heading text then -30 else 0)

/-- Tentative level of the enhanced scorer: the font band level, overridden
by the pattern suggestion when the pattern boost exceeds 0.3. -/
def enhancedLevel (line : TextLine) (thr : Thresholds) : String :=
  let text := pyStrip line.text
  let pa := _enhanced_pattern_analysis text
  match pa.2 with
  | some lv => if 30 < pa.1 then lv else (fontBand line.avg_size thr).2
  | none => (fontBand line.avg_size thr).2

/-- Early rejection filters of _analyze_line_with_enhanced_scoring, in
source order: the definitely-not-heading filter, the length window, the
content-fragment filter.  Each early return of the source yields None, so
the sequence is this disjunction. -/
def scorerEarlyReject (text : String) : Bool :=
  _is_definitely_not_heading text ||
  (text.data.length < 3 || 200 < text.data.length) ||
  _is_content_fragment text

/-- Source function _analyze_line_with_enhanced_scoring: emits a candidate
exactly when the early filters pass and the final confidence exceeds 0.55;
the stored confidence is clamped above at 1.0 and the stored position is
the line's y coordinate (line.get('y_pos', 0), always present).  The local
variable text of the source is written out as pyStrip line.text. -/
def _analyze_line_with_enhanced_scoring (line : TextLine) (thr : Thresholds)
    (page_num : Int) : Option HeadingCandidate :=
  if scorerEarlyReject (pyStrip line.text) then none
  else if 55 < enhancedConfidence line thr then
    some { text := pyStrip line.text, level := enhancedLevel line thr, page := page_num,
           confidence := min (enhancedConfidence line thr) 100, position := line.y_pos }
  else none

/-- Structural keyword vocabulary of the Threshold Calibrator. -/
def structuralKeywords : List String :=
  ["summary", "background", "appendix", "phase", "section"]

/-- Number of lines of a page using a given average font size (the count
entry of size_usage). -/
def sizeCount (text_lines : List TextLine) (s : ℚ) : Nat :=
  (text_lines.filter (fun l => decide (l.avg_size = s))).length

/-- Total character length of the lines using a given font size (the
total_chars entry of size_usage). -/
def sizeChars (text_lines : List TextLine) (s : ℚ) : Nat :=
  ((text_lines.filter (fun l => decide (l.avg_size = s))).map
    (fun l => l.text.data.length)).sum

/-- Number of lines of a given font size carrying a structural keyword (the
heading_indicators entry of size_usage). -/
def sizeIndicators (text_lines : List TextLine) (s : ℚ) : Nat :=
  (text_lines.filter (fun l =>
    decide (l.avg_size = s) && pyContainsAny (pyLower l.text) structuralKeywords)).length

/-- Descending order on rationals, used for sorted(set(...), reverse=True). -/
def qGe (a b : ℚ) : Prop := b ≤ a

instance : DecidableRel qGe := fun a b => inferInstanceAs (Decidable (b ≤ a))

instance : IsTotal ℚ qGe := ⟨fun a b => le_total b a⟩

instance : IsTrans ℚ qGe := ⟨fun _ _ _ h h2 => le_trans h2 h⟩

/-- Distinct font sizes in descending order (Python sorted(set(sizes),
reverse=True)). -/
def sortedDescSizes (font_sizes : List ℚ) : List ℚ :=
  List.insertionSort qGe font_sizes.dedup

/-- Source function _calculate_smart_thresholds.  The float comparison
avg_length < 60 (with avg_length = total_chars / max(count, 1)) is embedded
exactly as total_chars < 60 * max(count, 1), the denominator being
positive. -/
def _calculate_smart_thresholds (font_sizes : List ℚ) (text_lines : List TextLine) :
    Thresholds :=
  let unique_sizes := sortedDescSizes font_sizes
  let heading_sizes := unique_sizes.filter (fun s =>
    sizeChars text_lines s < 60 * max (sizeCount text_lines s) 1 ||
    0 < sizeIndicators text_lines s)
  match heading_sizes with
  | a :: b :: c :: _ => ⟨a, b, c⟩
  | [a, b] => ⟨a, b, b⟩
  | [a] => ⟨a, a, a⟩
  | [] =>
    ⟨(unique_sizes.get? 0).getD 12, (unique_sizes.get? 1).getD 12,
     (unique_sizes.get? 2).getD 12⟩

/-- Source function _extract_heading_candidates_from_page. -/
def _extract_heading_candidates_from_page (text_lines : List TextLine)
    (page_num : Int) : List HeadingCandidate :=
  let font_sizes := (text_lines.filter (fun l => decide (0 < l.avg_size))).map
    (fun l => l.avg_size)
  if font_sizes.isEmpty then []
  else
    let thr := _calculate_smart_thresholds font_sizes text_lines
    text_lines.filterMap (fun l => _analyze_line_with_enhanced_scoring l thr page_num)

/-- OCR token of the external OCR engine (spec section 6): recognised text
with the engine confidence (0 to 100) and block height.  The source reads
only the confidence and the text. -/
structure OcrToken where
  text : String
  conf : Int
  height : ℚ
deriving DecidableEq

/-- Source function _ocr_page, restricted to its candidate construction:
image rendering, language detection and the OCR call itself are external
(spec sections 4.6 and 6), so the function is modelled from the recognised
token list.  confidence is min(0.8, conf / 100.0) in hundredths, which is
exactly min 80 conf for an integer engine confidence. -/
def _ocr_page (tokens : List OcrToken) (page_num : Int) : List HeadingCandidate :=
  tokens.filterMap (fun t =>
    if 30 < t.conf ∧ pyStrip t.text ≠ "" then
      some { text := pyStrip t.text, level := "H3", page := page_num,
             confidence := min 80 t.conf, position := 0 }
    else none)

/-- Input page of the outline pipeline: either a page whose geometry yields
character data, represented by its built text lines, or a scanned page with
no character data, represented by its OCR tokens (the branch on page.chars
in _enhanced_heuristic_outline). -/
inductive PdfSrcPage where
  | chars (text_lines : List TextLine) : PdfSrcPage
  | scanned (tokens : List OcrToken) : PdfSrcPage
deriving DecidableEq

/-- Candidates contributed by one page. -/
def pageCandidates : PdfSrcPage → Int → List HeadingCandidate
  | .chars lines, n => _extract_heading_candidates_from_page lines n
  | .scanned toks, n => _ocr_page toks n

/-- Candidates of all pages with 1-based page numbers (enumerate(pdf.pages,
start=1)). -/
def documentCandidatesAux : List PdfSrcPage → Int → List HeadingCandidate
  | [], _ => []
  | p :: rest, n => pageCandidates p n ++ documentCandidatesAux rest (n + 1)

/-- Candidate list of a whole document. -/
def documentCandidates (pages : List PdfSrcPage) : List HeadingCandidate :=
  documentCandidatesAux pages 1

/-- Hierarchy depth of a level string (hierarchy_depth.get(level, 3)). -/
def hierarchyDepth (level : String) : Nat :=
  if level = "H1" then 0 else if level = "H2" then 1
  else if level = "H3" then 2 else 3

/-- Source function _update_path_with_hierarchy: truncate the running path
to the depth of the level (the new_path local of the source) and append the
text truncated to 50 characters. -/
def _update_path_with_hierarchy (current_path : List String) (level : String)
    (text : String) : List String :=
  (if hierarchyDepth level < current_path.length then
    current_path.take (hierarchyDepth level)
  else current_path) ++ [pyTake 50 text]

/-- Single-word structural section names exempted from fragment
filtering. -/
def importantSingles : List String :=
  ["summary", "background", "timeline", "milestones", "preamble", "membership",
   "chair", "term", "meetings", "acknowledgements", "references", "content",
   "trademarks"]

/-- Document structure header phrases. -/
def documentHeaders : List String :=
  ["revision history", "table of contents", "acknowledgements", "references",
   "trademarks", "documents and web sites"]

/-- Source predicate _is_sentence_fragment of the hierarchy builder, with
its allow-lists, in source order. -/
def _is_sentence_fragment (text : String) : Bool :=
  if strIn (pyStrip (pyLower text)) importantSingles then false
  else if pyContainsAny (pyLower text) documentHeaders then false
  else if matchNumSecLetter text.data || matchNumSubLetter text.data then false
  else if (match text.data with | c :: _ => isLowerChar c | [] => false) &&
      !(pyContainsAny (pyLower text)
        ["intended audience", "career paths", "learning objectives"]) then true
  else if pyContainsAny (pyLower text)
      [" is to ", " are to ", " will be ", " has been ", " have been ", " can be ",
       " should be ", " must be ", " to be ", " that ", " which ", " where ",
       " when ", " while ", " during "] then true
  else if pyEndsWithAny text
      [" to", " and", " or", " of", " in", " for", " the", " a", " an", " that",
       " which"] && !(pyEndsWith text ":") then true
  else if (pySplitS text).length < 2 && !(pyEndsWith text ":") && !(pyIsUpper text) &&
      !(strIn (pyLower text) importantSingles) then true
  else false

/-- Source predicate _breaks_hierarchy_path (the current path parameter is
accepted but never read by the source). -/
def _breaks_hierarchy_path (c : HeadingCandidate) (_current_path : List String) : Bool :=
  (matchYearStart c.text.data || pyContains (pyLower c.text) "timeline:") ||
  matchPureNumericParen c.text.data ||
  (c.text.data.length < 10 && (pyIsDigitS c.text || matchPageNum (pyLower c.text).data))

/-- Business and structural vocabulary of _is_meaningful_heading. -/
def businessTerms : List String :=
  ["business plan", "requirements", "evaluation", "approach", "implementation",
   "methodology", "milestones", "funding", "terms of reference", "accountability",
   "communication", "intended audience", "career paths", "learning objectives",
   "entry requirements", "structure and course", "keeping it current",
   "business outcomes", "documents and web sites"]

/-- Source predicate _is_meaningful_heading, in source order; the
section_patterns loop with re.IGNORECASE is the inner disjunction. -/
def _is_meaningful_heading (text : String) : Bool :=
  if (pyStrip text).data.length < 2 then false
  else if matchNumDashDotParen text.data then false
  else if pyContains text "@" || pyStartsWithAny text ["http://", "https://", "www."] then
    false
  else if pyContainsAny (pyLower text) documentHeaders then true
  else if pyEndsWith text ":" then true
  else if pyStartsWithAny text ["What ", "How ", "Why ", "When ", "Where "] &&
      pyEndsWith text "?" then true
  else if matchNumSecLetter text.data then true
  else if matchNumSubLetter text.data then true
  else if matchAppendixCI text.data then true
  else if strIn (pyLower text)
        ["summary", "background", "introduction", "overview", "conclusion",
         "timeline", "milestones", "acknowledgements", "references"] ||
      matchAppendixCI text.data || matchPhaseCI text.data ||
      matchTitleColonCI text.data || matchNumSecCI2 text.data ||
      strIn (pyLower text)
        ["chair", "term", "meetings", "membership", "preamble", "content",
         "audience", "duration", "outcomes", "trademarks"] then true
  else if pyStartsWithAny text ["For each ", "For the ", "For each Ontario"] then true
  else if pyContainsAny (pyLower text) businessTerms && text.data.length < 120 then true
  else if strIn (pyStrip (pyLower text)) importantSingles then true
  else if pyStartsWithAny (pyLower text)
      ["the ", "a ", "an ", "and ", "or ", "but ", "to ", "of ", "in ", "for "] then
    false
  else if pyIsTitle text && 2 ≤ text.data.length && text.data.length ≤ 80 then true
  else if pyIsUpper text && 2 ≤ text.data.length && text.data.length ≤ 60 then true
  else false

/-- Word-set overlap test of _is_contextual_duplicate.  The float comparison
overlap / min_len > 0.8 is embedded exactly as 4 * min_len < 5 * overlap
(min_len is positive on the branch where the source divides). -/
def wordOverlapTooHigh (t1 t2 : String) : Bool :=
  let words1 := (pySplitS (pyLower t1)).dedup
  let words2 := (pySplitS (pyLower t2)).dedup
  if words1.isEmpty || words2.isEmpty then false
  else
    let overlap := (words1.filter (fun w => decide (w ∈ words2))).length
    let min_len := min words1.length words2.length
    4 * min_len < 5 * overlap

/-- Python slice l[-n:] (the last n elements). -/
def lastN {α : Type} (n : Nat) (l : List α) : List α := l.drop (l.length - n)

/-- Source predicate _is_contextual_duplicate: exact case-insensitive match
or excessive word overlap with one of the last three accepted headings. -/
def _is_contextual_duplicate (text : String) (existing_headings : List OutlineItem) :
    Bool :=
  if existing_headings.isEmpty then false
  else (lastN 3 existing_headings).any (fun h =>
    decide (pyStrip (pyLower text) = pyStrip (pyLower h.text)) ||
      wordOverlapTooHigh text h.text)

/-- Source predicate _node_quality_check, in source order. -/
def _node_quality_check (c : HeadingCandidate) (current_path : List String)
    (existing_headings : List OutlineItem) : Bool :=
  if c.confidence < 60 then false
  else if _is_sentence_fragment c.text then false
  else if _breaks_hierarchy_path c current_path then false
  else if !(_is_meaningful_heading c.text) then false
  else if _is_contextual_duplicate c.text existing_headings then false
  else true

/-- Projection of an accepted candidate to its OutlineItem. -/
def candidateItem (c : HeadingCandidate) : OutlineItem := ⟨c.level, c.text, c.page⟩

/-- Mutable state of the hierarchy builder loop: the running hierarchy path,
the duplicate-suppression set of normalised accepted texts (a list used only
through membership), and the accepted candidates in acceptance order (the
source appends the corresponding OutlineItem; the candidate is kept here so
that its page and position remain visible, and candidateItem recovers the
source list). -/
structure HState where
  path : List String
  seen : List String
  accepted : List HeadingCandidate
deriving DecidableEq

/-- Normalised duplicate-suppression key of the hierarchy builder: the
local variable text_key = text.lower().strip() of the source. -/
def normKey (s : String) : String := pyStrip (pyLower s)

/-- One iteration of the candidate loop of _build_document_hierarchy:
duplicate skip, quality check, then acceptance with path update. -/
def hierStep (st : HState) (c : HeadingCandidate) : HState :=
  if normKey c.text ∈ st.seen then st
  else if _node_quality_check c st.path (st.accepted.map candidateItem) then
    { path := _update_path_with_hierarchy st.path c.level c.text,
      seen := normKey c.text :: st.seen,
      accepted := st.accepted ++ [c] }
  else st

/-- Sort key order of candidates.sort(key=lambda x: (x['page'],
x.get('position', 0))): lexicographic on page then position. -/
def candidateOrder (a b : HeadingCandidate) : Prop :=
  a.page < b.page ∨ (a.page = b.page ∧ a.position ≤ b.position)

instance : DecidableRel candidateOrder := fun a b => by
  unfold candidateOrder; infer_instance

/-- Stable sort of the candidates in document reading order (Python
list.sort is stable, as is insertion sort). -/
def sortCandidates (cs : List HeadingCandidate) : List HeadingCandidate :=
  List.insertionSort candidateOrder cs

/-- Accepted candidates of the hierarchy builder, in acceptance order. -/
def acceptedCandidates (cs : List HeadingCandidate) : List HeadingCandidate :=
  ((sortCandidates cs).foldl hierStep ⟨[], [], []⟩).accepted

/-- Source function _build_document_hierarchy: sort, filter through the
stateful loop, project to OutlineItems, truncate to 40 items.  The local
DocumentNode bookkeeping of the source is dead state (nodes are created and
marked but never read) and is not modelled. -/
def _build_document_hierarchy (cs : List HeadingCandidate) : List OutlineItem :=
  if cs.isEmpty then []
  else ((acceptedCandidates cs).map candidateItem).take 40

/-- Outline part of _enhanced_heuristic_outline / extract_outline: all page
candidates in page order fed to the hierarchy builder.  Title extraction is
a separate first-page scanner not involved in any outline claim. -/
def extract_outline_items (pages : List PdfSrcPage) : List OutlineItem :=
  _build_document_hierarchy (documentCandidates pages)

/-- Positioned word of a page of the content-extraction model: the page
geometry provider is external (spec section 6), so a page is given as its
word list, each word carrying the vertical coordinate used by the crop
box. -/
structure PageWord where
  pos : ℚ
  txt : String
deriving DecidableEq

/-- Page of the content-extraction model: height and positioned words in
reading order. -/
structure PdfPage where
  height : ℚ
  words : List PageWord
deriving DecidableEq

/-- Model of page.extract_text() of the external geometry provider: the
words of the page joined by single spaces (empty string for an empty
page). -/
def pageExtractText (p : PdfPage) : String := pyJoin " " (p.words.map PageWord.txt)

/-- Model of page.crop((0, top, width, bottom)).extract_text(): the words
whose coordinate lies in the crop band. -/
def cropExtractText (p : PdfPage) (top bottom : ℚ) : String :=
  pyJoin " "
    ((p.words.filter (fun w => decide (top ≤ w.pos) && decide (w.pos ≤ bottom))).map
      PageWord.txt)

/-- Python list indexing semantics: non-negative indices from the front,
negative indices wrapping from the back, anything else an IndexError
(returned as none and treated as an exception by the callers). -/
def pyIdx {α : Type} (l : List α) (i : Int) : Option α :=
  if 0 ≤ i then l.get? i.toNat
  else if 0 ≤ (l.length : Int) + i then l.get? ((l.length : Int) + i).toNat
  else none

/-- Python range(a, b) over integers. -/
def pyRange (a b : Int) : List Int := (List.range (b - a).toNat).map (fun k => a + k)

/-- Heading record passed to the section content extractor.  The position
key is genuinely optional: the serialized outline items of the source carry
no position, and the synthetic fallback section of the round-1b driver
carries position 0.0, so heading.get('position', default) is an Option
read. -/
structure Heading where
  level : String
  text : String
  page : Int
  position : Option ℚ
deriving DecidableEq

/-- Python all_headings.index(start_heading): first index whose element
equals the heading, ValueError (none) when absent. -/
def pyIndexOf (x : Heading) : List Heading → Option Nat
  | [] => none
  | h :: t => if h = x then some 0 else (pyIndexOf x t).map (· + 1)

/-- Whitespace collapsing of re.sub(r'\s+', ' ', text): every maximal
whitespace run becomes one space (automaton with a previous-was-whitespace
flag). -/
def collapseWsAux : List Char → Bool → List Char
  | [], _ => []
  | c :: t, prevWs =>
    if wsB c then (if prevWs then collapseWsAux t true else ' ' :: collapseWsAux t true)
    else c :: collapseWsAux t false

/-- String form of the whitespace collapsing. -/
def collapseWs (s : String) : String := String.mk (collapseWsAux s.data false)

/-- First loop of _fallback_extract_content: scan nearby pages for the first
with more than 50 stripped characters.  The inner try/except of the source
maps an indexing failure to continue; in the model pyIdx on the computed
range never fails, but the branch is kept. -/
def fallbackLoop1 (pdf : List PdfPage) : List Int → Option String
  | [] => none
  | i :: rest =>
    match pyIdx pdf i with
    | none => fallbackLoop1 pdf rest
    | some page =>
      let text := pageExtractText page
      if text ≠ "" ∧ 50 < (pyStrip text).data.length then
        let sentences := pySplitDot text
        if 2 < sentences.length then some (pyJoin ". " (sentences.take 3) ++ ".")
        else some (pyTake 500 (pyStrip text))
      else fallbackLoop1 pdf rest

/-- Second loop of _fallback_extract_content: scan every page for the first
with more than 20 stripped characters of text. -/
def fallbackLoop2 : List PdfPage → Option String
  | [] => none
  | page :: rest =>
    let text := pageExtractText page
    if text ≠ "" ∧ 20 < (pyStrip text).data.length then
      let clean := pyJoin " " (pySplitS text)
      if 100 < clean.data.length then some (pyTake 300 clean ++ "...")
      else some clean
    else fallbackLoop2 rest

/-- Absolute final fallback sentence of _fallback_extract_content,
synthesized from the heading text and page (both keys always present on the
headings the system builds, so heading.get('text', ...) and
heading.get('page', 'unknown') are plain field reads). -/
def fallbackSynth (heading : Heading) : String :=
  "This section covers " ++ pyLower heading.text ++
    " and contains relevant information for travel planning (from page " ++
    toString heading.page ++ ")."

/-- Nearby-page and whole-document scan loops of _fallback_extract_content,
ending in the synthesized sentence. -/
def fallbackLoops (pdf : List PdfPage) (heading : Heading) : String :=
  match fallbackLoop1 pdf
      (pyRange (max 0 (heading.page - 2)) (min (pdf.length : Int) (heading.page + 2))) with
  | some s => s
  | none =>
    match fallbackLoop2 pdf with
    | some s => s
    | none => fallbackSynth heading

/-- Source function _fallback_extract_content.  The one operation of its try
block that can raise in the model is the page lookup pages[page_num - 1];
its failure is caught by the blanket except and falls through to the final
synthesized sentence. -/
def _fallback_extract_content (pdf : List PdfPage) (heading : Heading) : String :=
  if (heading.page : Int) ≤ (pdf.length : Int) then
    match pyIdx pdf (heading.page - 1) with
    | none => fallbackSynth heading
    | some page =>
      if pageExtractText page ≠ "" ∧ pyStrip (pageExtractText page) ≠ "" then
        (if 3 < (pySplitDot (pageExtractText page)).length then
          pyJoin ". " ((pySplitDot (pageExtractText page)).take 5) ++ "."
        else pyStrip (pageExtractText page))
      else fallbackLoops pdf heading
  else fallbackLoops pdf heading

/-- Outcome of the page loop of extract_section_content: an early return
from the degenerate-boundary branch, an exception escaping to the outer
handler, or normal completion with the accumulated content. -/
inductive LoopOut where
  | ret (s : String) : LoopOut
  | exc : LoopOut
  | done (content : List String) : LoopOut
deriving DecidableEq

/-- Top crop boundary of one page of the extraction span: the heading
position on the first page, the page top elsewhere. -/
def cropTop (i start_page_num : Int) (start_y : ℚ) : ℚ :=
  if i = start_page_num - 1 then max 0 start_y else 0

/-- Bottom crop boundary of one page of the extraction span: the next
heading's position on the last page when an end heading exists, the page
bottom elsewhere. -/
def cropBottom (endH : Option Heading) (i end_page_num : Int) (end_y : ℚ)
    (page : PdfPage) : ℚ :=
  if endH.isSome ∧ i = end_page_num - 1 then min page.height end_y else page.height

/-- Text taken from one page of the span: the crop when a boundary is
proper, the full page otherwise. -/
def sectionPageText (page : PdfPage) (top bottom : ℚ) : String :=
  if 0 < top ∨ bottom < page.height then cropExtractText page top bottom
  else pageExtractText page

/-- Page loop of extract_section_content.  On each page index: break when
past the last page; page lookup (an out-of-range negative index raises); the
crop band is the heading position on the first page and the next heading's
position on the last bounded page; a degenerate band retries through the
document fallback and only continues when that yields nothing; otherwise the
page or its crop is extracted and appended when non-blank.  The inner
try/except of the source around the crop call is dead in the model, cropping
being total. -/
def sectionPagesLoop (pdf : List PdfPage) (heading : Heading) (endH : Option Heading)
    (start_page_num : Int) (start_y : ℚ) (end_page_num : Int) (end_y : ℚ) :
    List Int → List String → LoopOut
  | [], content => .done content
  | i :: rest, content =>
    if (pdf.length : Int) ≤ i then .done content
    else
      match pyIdx pdf i with
      | none => .exc
      | some page =>
        if cropBottom endH i end_page_num end_y page ≤ cropTop i start_page_num start_y then
          (if _fallback_extract_content pdf heading ≠ "" then
            .ret (_fallback_extract_content pdf heading)
          else sectionPagesLoop pdf heading endH start_page_num start_y end_page_num
            end_y rest content)
        else
          if sectionPageText page (cropTop i start_page_num start_y)
                (cropBottom endH i end_page_num end_y page) ≠ "" ∧
              pyStrip (sectionPageText page (cropTop i start_page_num start_y)
                (cropBottom endH i end_page_num end_y page)) ≠ "" then
            sectionPagesLoop pdf heading endH start_page_num start_y end_page_num end_y
              rest (content ++ [pyStrip (sectionPageText page
                (cropTop i start_page_num start_y)
                (cropBottom endH i end_page_num end_y page))])
          else sectionPagesLoop pdf heading endH start_page_num start_y end_page_num
            end_y rest content

/-- End boundary (end_page_num, end_y) of extract_section_content: the next
heading's page and position when an end heading exists, the document end
otherwise.  The source evaluates the default argument
pdf.pages[end_page_num - 1].height of end_heading.get('position', ...)
eagerly, so an out-of-range end page raises (none here) even when the
position key is present, landing in the outer except and hence the
fallback. -/
def sectionEndParams (pdf : List PdfPage) (endH : Option Heading) : Option (Int × ℚ) :=
  match endH with
  | some e =>
    match pyIdx pdf (e.page - 1) with
    | none => none
    | some lastPage => some (e.page, e.position.getD lastPage.height)
  | none => some ((pdf.length : Int), -1)

/-- Source function extract_section_content.  The heading is located by
value in the heading list (fallback when absent); the end boundary comes
from sectionEndParams (none standing for the exception of the eager default
argument, resolved by the outer except as the fallback); the page loop runs
over range(start_page_num - 1, min(end_page_num, page count)); non-empty
accumulated content is joined with single spaces, whitespace-collapsed and
stripped, and empty content falls back. -/
def extract_section_content (pdf : List PdfPage) (start_heading : Heading)
    (all_headings : List Heading) : String :=
  match pyIndexOf start_heading all_headings with
  | none => _fallback_extract_content pdf start_heading
  | some start_index =>
    match sectionEndParams pdf (all_headings.get? (start_index + 1)) with
    | none => _fallback_extract_content pdf start_heading
    | some ep =>
      match sectionPagesLoop pdf start_heading (all_headings.get? (start_index + 1))
          start_heading.page (start_heading.position.getD 0) ep.1 ep.2
          (pyRange (start_heading.page - 1) (min ep.1 (pdf.length : Int))) [] with
      | .ret s => s
      | .exc => _fallback_extract_content pdf start_heading
      | .done content =>
        if content.isEmpty then _fallback_extract_content pdf start_heading
        else pyStrip (collapseWs (pyJoin " " content))

/-- Section record consumed by the semantic ranker: the ranker reads the
text entry of each heading dict and writes its relevance_score entry; the
other entries of the dict play no role in ranking and page stands for
them. -/
structure RankSection where
  text : String
  page : Int
  relevance_score : ℚ
deriving DecidableEq

/-- External sentence-embedding interface (spec section 6): string encoding
into an opaque vector space together with the cosine-similarity routine of
the external util module operating on that space. -/
structure EmbedModel where
  encode : String → List ℚ
  cosSim : List ℚ → List ℚ → ℚ

/-- SemanticRanker state: the model field is None when loading failed in the
constructor. -/
structure SemanticRanker where
  model : Option EmbedModel

/-- Descending score order of sorted(..., key=relevance_score,
reverse=True). -/
def rankOrder (a b : RankSection) : Prop := b.relevance_score ≤ a.relevance_score

instance : DecidableRel rankOrder := fun a b => by unfold rankOrder; infer_instance

/-- Source method SemanticRanker.rank_sections: empty result when the model
is unavailable or the section list is empty; otherwise one query embedding,
one embedding per section text, cosine scores, and a stable descending sort
(Python sorted with reverse=True is stable, as is insertion sort). -/
def rank_sections (r : SemanticRanker) (persona job : String)
    (sections : List RankSection) : List RankSection :=
  match r.model with
  | none => []
  | some m =>
    if sections.isEmpty then []
    else
      let query := "User profile: " ++ persona ++ ". Task to be completed: " ++ job
      let q := m.encode query
      let scored := sections.map (fun s =>
        { s with relevance_score := m.cosSim q (m.encode s.text) })
      List.insertionSort rankOrder scored

/-- Non-blank test: the string has at least one non-whitespace character,
which is exactly being non-empty and not whitespace-only. -/
def hasNonWs (s : String) : Bool := s.data.any (fun c => !wsB c)

theorem ne_empty_of_hasNonWs {s : String} (h : hasNonWs s = true) : s ≠ "" := by
  intro he
  subst he
  simp [hasNonWs] at h

theorem data_append (a b : String) : (a ++ b).data = a.data ++ b.data := rfl

theorem hasNonWs_append_left {a : String} (b : String) (h : hasNonWs a = true) :
    hasNonWs (a ++ b) = true := by
  simp only [hasNonWs, data_append, List.any_append, Bool.or_eq_true]
  exact Or.inl h

theorem hasNonWs_append_right (a : String) {b : String} (h : hasNonWs b = true) :
    hasNonWs (a ++ b) = true := by
  simp only [hasNonWs, data_append, List.any_append, Bool.or_eq_true]
  exact Or.inr h

theorem mem_dropWhile_of_not {α : Type} {p : α → Bool} {c : α} :
    ∀ {l : List α}, c ∈ l → p c = false → c ∈ l.dropWhile p
  | a :: t, hm, hc => by
    by_cases hp : p a = true
    · rw [List.dropWhile_cons_of_pos hp]
      rcases List.mem_cons.mp hm with rfl | ht
      · rw [hp] at hc; cases hc
      · exact mem_dropWhile_of_not ht hc
    · rw [List.dropWhile_cons_of_neg hp]
      exact hm

theorem head_dropWhile_not {α : Type} {p : α → Bool} :
    ∀ {l : List α} {c : α} {t : List α}, l.dropWhile p = c :: t → p c = false
  | [], c, t, h => by cases h
  | a :: r, c, t, h => by
    by_cases hp : p a = true
    · rw [List.dropWhile_cons_of_pos hp] at h
      exact head_dropWhile_not h
    · rw [List.dropWhile_cons_of_neg hp] at h
      cases h
      exact Bool.not_eq_true _ ▸ Bool.of_not_eq_true hp

theorem dropWhile_suffix_decomp {α : Type} (p : α → Bool) :
    ∀ l : List α, ∃ u, l = u ++ l.dropWhile p
  | [] => ⟨[], rfl⟩
  | a :: t => by
    by_cases hp : p a = true
    · rw [List.dropWhile_cons_of_pos hp]
      obtain ⟨u, hu⟩ := dropWhile_suffix_decomp p t
      exact ⟨a :: u, by rw [List.cons_append, ← hu]⟩
    · rw [List.dropWhile_cons_of_neg hp]
      exact ⟨[], rfl⟩

theorem mem_pyStripL {c : Char} {l : List Char} (h : c ∈ pyStripL l) : c ∈ l := by
  unfold pyStripL at h
  rw [List.mem_reverse] at h
  have h2 := List.dropWhile_sublist (l := (l.dropWhile wsB).reverse) (p := wsB)
  have h3 : c ∈ (l.dropWhile wsB).reverse := h2.mem h
  rw [List.mem_reverse] at h3
  exact (List.dropWhile_sublist (l := l) (p := wsB)).mem h3

theorem pyStripL_ne_of_hasNonWs {l : List Char} {c : Char} (hm : c ∈ l)
    (hc : wsB c = false) : pyStripL l ≠ [] := by
  intro he
  unfold pyStripL at he
  rw [List.reverse_eq_nil_iff] at he
  have h1 : c ∈ l.dropWhile wsB := mem_dropWhile_of_not hm hc
  have h2 : c ∈ (l.dropWhile wsB).reverse := List.mem_reverse.mpr h1
  have h3 : c ∈ (l.dropWhile wsB).reverse.dropWhile wsB := mem_dropWhile_of_not h2 hc
  rw [he] at h3
  cases h3

theorem pyStripL_head_not_ws {l : List Char} {c : Char} {t : List Char}
    (h : pyStripL l = c :: t) : wsB c = false := by
  unfold pyStripL at h
  set m := l.dropWhile wsB with hm
  have hq : m.reverse.dropWhile wsB = (c :: t).reverse := by
    have := congrArg List.reverse h
    rwa [List.reverse_reverse] at this
  -- the last element of the trailing-trimmed reverse is the head of m
  obtain ⟨u, hu⟩ := dropWhile_suffix_decomp wsB m.reverse
  rw [hq] at hu
  have hlast : m.reverse.getLast? = some c := by
    rw [hu, List.getLast?_append_of_ne_nil, List.getLast?_reverse]
    · simp
    · simp
  rw [List.getLast?_reverse] at hlast
  have hmhead : ∃ t2, m = c :: t2 := by
    cases hm2 : m with
    | nil => rw [hm2] at hlast; simp at hlast
    | cons a t2 =>
      rw [hm2] at hlast
      simp only [List.head?_cons, Option.some_inj] at hlast
      exact ⟨t2, by rw [hlast]⟩
  obtain ⟨t2, ht2⟩ := hmhead
  exact head_dropWhile_not (hm ▸ ht2 : l.dropWhile wsB = c :: t2)

theorem hasNonWs_of_pyStrip_ne {s : String} (h : pyStrip s ≠ "") :
    hasNonWs (pyStrip s) = true := by
  unfold pyStrip at *
  cases hl : pyStripL s.data with
  | nil => exact absurd (by rw [hl]) h
  | cons c t =>
    have hc := pyStripL_head_not_ws hl
    simp only [hasNonWs, hl, List.any_cons, Bool.or_eq_true]
    exact Or.inl (by rw [hc]; rfl)

theorem hasNonWs_pyStrip_of_hasNonWs {s : String} (h : hasNonWs s = true) :
    hasNonWs (pyStrip s) = true := by
  simp only [hasNonWs, List.any_eq_true, Bool.not_eq_eq_eq_not, Bool.not_true] at h
  obtain ⟨c, hm, hc⟩ := h
  apply hasNonWs_of_pyStrip_ne
  intro he
  have : pyStripL s.data = [] := congrArg String.data he
  exact pyStripL_ne_of_hasNonWs hm hc this

theorem hasNonWs_take {l : List Char} {c : Char} {t : List Char} {n : Nat}
    (hl : l = c :: t) (hc : wsB c = false) (hn : 1 ≤ n) :
    (String.mk (l.take n)).data.any (fun d => !wsB d) = true := by
  subst hl
  cases n with
  | zero => cases hn
  | succ k =>
    simp only [List.take_succ_cons, List.any_cons, Bool.or_eq_true]
    exact Or.inl (by rw [hc]; rfl)

theorem hasNonWs_pyTake {s : String} {c : Char} {t : List Char} {n : Nat}
    (hl : s.data = c :: t) (hc : wsB c = false) (hn : 1 ≤ n) :
    hasNonWs (pyTake n s) = true := by
  unfold pyTake hasNonWs
  exact hasNonWs_take hl hc hn

theorem hasNonWs_collapseAux :
    ∀ {l : List Char} (b : Bool), l.any (fun c => !wsB c) = true →
      (collapseWsAux l b).any (fun c => !wsB c) = true
  | [], _, h => by cases h
  | c :: t, b, h => by
    unfold collapseWsAux
    by_cases hc : wsB c = true
    · have ht : t.any (fun c => !wsB c) = true := by
        simp only [List.any_cons, Bool.or_eq_true] at h
        rcases h with h | h
        · rw [hc] at h; cases h
        · exact h
      rw [hc, if_pos rfl]
      cases b
      · rw [if_neg Bool.false_ne_true]
        simp only [List.any_cons, Bool.or_eq_true]
        exact Or.inr (hasNonWs_collapseAux true ht)
      · rw [if_pos rfl]
        exact hasNonWs_collapseAux true ht
    · rw [Bool.not_eq_true] at hc
      rw [hc]
      simp only [Bool.false_eq_true, if_false, List.any_cons, Bool.or_eq_true]
      exact Or.inl (by rw [hc]; rfl)

theorem hasNonWs_collapseWs {s : String} (h : hasNonWs s = true) :
    hasNonWs (collapseWs s) = true := by
  unfold collapseWs hasNonWs at *
  exact hasNonWs_collapseAux false h

theorem hasNonWs_pyJoin {sep : String} :
    ∀ {parts : List String} {x : String}, x ∈ parts → hasNonWs x = true →
      hasNonWs (pyJoin sep parts) = true
  | [x], y, hm, hx => by
    rcases List.mem_singleton.mp hm with rfl
    exact hx
  | x :: y :: t, z, hm, hz => by
    show hasNonWs (x ++ sep ++ pyJoin sep (y :: t)) = true
    rcases List.mem_cons.mp hm with rfl | hm2
    · exact hasNonWs_append_left _ (hasNonWs_append_left _ hz)
    · exact hasNonWs_append_right _ (hasNonWs_pyJoin hm2 hz)

theorem node_check_false_of_lowconf {c : HeadingCandidate} (h : c.confidence < 60)
    (path : List String) (items : List OutlineItem) :
    _node_quality_check c path items = false := by
  unfold _node_quality_check
  rw [if_pos h]

theorem hierStep_eq_of_check_false {st : HState} {c : HeadingCandidate}
    (h : _node_quality_check c st.path (st.accepted.map candidateItem) = false) :
    hierStep st c = st := by
  unfold hierStep
  by_cases hm : normKey c.text ∈ st.seen
  · rw [if_pos hm]
  · rw [if_neg hm, h, if_neg Bool.false_ne_true]

theorem hierStep_accept {st : HState} {c : HeadingCandidate}
    (hm : normKey c.text ∉ st.seen)
    (hq : _node_quality_check c st.path (st.accepted.map candidateItem) = true) :
    hierStep st c =
      ⟨_update_path_with_hierarchy st.path c.level c.text, normKey c.text :: st.seen,
       st.accepted ++ [c]⟩ := by
  unfold hierStep
  rw [if_neg hm, hq, if_pos rfl]

theorem hierStep_cases (st : HState) (c : HeadingCandidate) :
    hierStep st c = st ∨ hierStep st c =
      ⟨_update_path_with_hierarchy st.path c.level c.text, normKey c.text :: st.seen,
       st.accepted ++ [c]⟩ := by
  by_cases hm : normKey c.text ∈ st.seen
  · exact Or.inl (by unfold hierStep; rw [if_pos hm])
  · by_cases hq : _node_quality_check c st.path (st.accepted.map candidateItem) = true
    · exact Or.inr (hierStep_accept hm hq)
    · rw [Bool.not_eq_true] at hq
      exact Or.inl (hierStep_eq_of_check_false hq)

/-- C9: when the embedding model failed to load (model is None),
rank_sections returns the empty list rather than raising; an empty section
list likewise yields an empty result. -/
theorem rank_sections_model_unavailable (r : SemanticRanker) (persona job : String)
    (sections : List RankSection) :
    (r.model = none → rank_sections r persona job sections = []) ∧
    rank_sections r persona job [] = [] := by
  constructor
  · intro h
    unfold rank_sections
    rw [h]
  · unfold rank_sections
    cases r.model with
    | none => rfl
    | some m => rfl

theorem rank_sections_model_unavailable_witness :
    rank_sections ⟨none⟩ "Travel Planner" "Plan a trip"
      [⟨"Beach Activities", 1, 0⟩] = [] :=
  (rank_sections_model_unavailable ⟨none⟩ "Travel Planner" "Plan a trip"
    [⟨"Beach Activities", 1, 0⟩]).1 rfl

/-- C8: a candidate whose confidence is below 0.6, or that fails any other
check of _node_quality_check, is rejected by the hierarchy builder with its
whole state (running path, seen-texts set, accumulated output) unchanged. -/
theorem hierarchy_rejection_preserves_state (st : HState) (c : HeadingCandidate)
    (h : c.confidence < 60 ∨
      _node_quality_check c st.path (st.accepted.map candidateItem) = false) :
    hierStep st c = st := by
  rcases h with h | h
  · exact hierStep_eq_of_check_false (node_check_false_of_lowconf h _ _)
  · exact hierStep_eq_of_check_false h

theorem hierarchy_rejection_preserves_state_witness :
    hierStep ⟨["Ancestor"], ["seen entry"], []⟩ ⟨"1. Overview", "H1", 1, 50, 0⟩ =
      ⟨["Ancestor"], ["seen entry"], []⟩ :=
  hierarchy_rejection_preserves_state _ _ (Or.inl (by decide))

theorem update_path_spec (path : List String) (level text : String) (k : Nat)
    (hk : hierarchyDepth level = k - 1) (hk1 : 1 ≤ k) :
    (_update_path_with_hierarchy path level text).length ≤ k ∧
    (_update_path_with_hierarchy path level text).getLast? = some (pyTake 50 text) ∧
    (_update_path_with_hierarchy path level text).dropLast <+: path ∧
    (_update_path_with_hierarchy path level text).dropLast.length ≤ k - 1 := by
  unfold _update_path_with_hierarchy
  rw [hk]
  by_cases hlt : k - 1 < path.length
  · rw [if_pos hlt]
    refine ⟨?_, List.getLast?_concat _, ?_, ?_⟩
    · rw [List.length_append, List.length_take]
      simp only [List.length_singleton]
      omega
    · rw [List.dropLast_concat]
      exact List.take_prefix _ _
    · rw [List.dropLast_concat, List.length_take]
      omega
  · rw [if_neg hlt]
    push_neg at hlt
    refine ⟨?_, List.getLast?_concat _, ?_, ?_⟩
    · rw [List.length_append]
      simp only [List.length_singleton]
      omega
    · rw [List.dropLast_concat]
    · rw [List.dropLast_concat]
      omega

/-- C5: immediately after the hierarchy builder accepts a candidate of level
Hk, the running path has length at most k, its last entry is the candidate's
text truncated to 50 characters, its other entries are a prefix of the
previous path, and at most k - 1 ancestor entries are retained. -/
theorem hierarchy_path_truncation (st : HState) (c : HeadingCandidate) (k : Nat)
    (hlv : (c.level, k) ∈ [("H1", 1), ("H2", 2), ("H3", 3), ("H4", 4)])
    (hm : normKey c.text ∉ st.seen)
    (hq : _node_quality_check c st.path (st.accepted.map candidateItem) = true) :
    (hierStep st c).path.length ≤ k ∧
    (hierStep st c).path.getLast? = some (pyTake 50 c.text) ∧
    (hierStep st c).path.dropLast <+: st.path ∧
    (hierStep st c).path.dropLast.length ≤ k - 1 := by
  have hd : hierarchyDepth c.level = k - 1 ∧ 1 ≤ k := by
    simp only [List.mem_cons, List.mem_singleton, Prod.mk.injEq,
      List.not_mem_nil, or_false] at hlv
    rcases hlv with ⟨h1, h2⟩ | ⟨h1, h2⟩ | ⟨h1, h2⟩ | ⟨h1, h2⟩ <;> subst h2 <;>
      exact ⟨by rw [h1]; decide, by omega⟩
  rw [hierStep_accept hm hq]
  exact update_path_spec st.path c.level c.text k hd.1 hd.2

theorem hierarchy_path_truncation_witness :
    (hierStep ⟨["Old Ancestor"], ["other"], []⟩ ⟨"1. Overview", "H1", 1, 80, 0⟩).path.length ≤ 1 ∧
    (hierStep ⟨["Old Ancestor"], ["other"], []⟩
        ⟨"1. Overview", "H1", 1, 80, 0⟩).path.getLast? = some (pyTake 50 "1. Overview") ∧
    (hierStep ⟨["Old Ancestor"], ["other"], []⟩
        ⟨"1. Overview", "H1", 1, 80, 0⟩).path.dropLast <+: ["Old Ancestor"] ∧
    (hierStep ⟨["Old Ancestor"], ["other"], []⟩
        ⟨"1. Overview", "H1", 1, 80, 0⟩).path.dropLast.length ≤ 1 - 1 :=
  hierarchy_path_truncation ⟨["Old Ancestor"], ["other"], []⟩
    ⟨"1. Overview", "H1", 1, 80, 0⟩ 1 (by decide) (by decide) (by decide)

theorem foldl_hierStep_orderedInsert {c : HeadingCandidate}
    (hid : ∀ st, hierStep st c = st) :
    ∀ (l : List HeadingCandidate) (st : HState),
      (List.orderedInsert candidateOrder c l).foldl hierStep st = l.foldl hierStep st
  | [], st => by
    show (hierStep st c) = st
    exact hid st
  | b :: l, st => by
    unfold List.orderedInsert
    by_cases h : candidateOrder c b
    · rw [if_pos h]
      show (b :: l).foldl hierStep (hierStep st c) = (b :: l).foldl hierStep st
      rw [hid st]
    · rw [if_neg h]
      show (List.orderedInsert candidateOrder c l).foldl hierStep (hierStep st b) =
        l.foldl hierStep (hierStep st b)
      exact foldl_hierStep_orderedInsert hid l (hierStep st b)

theorem build_cons_skip {c : HeadingCandidate} (hid : ∀ st, hierStep st c = st)
    (cs : List HeadingCandidate) :
    _build_document_hierarchy (c :: cs) = _build_document_hierarchy cs := by
  unfold _build_document_hierarchy acceptedCandidates sortCandidates
  cases cs with
  | nil =>
    show ((((List.insertionSort candidateOrder [c]).foldl hierStep
      ⟨[], [], []⟩).accepted.map candidateItem).take 40) = []
    have h1 : List.insertionSort candidateOrder [c] = [c] := rfl
    rw [h1]
    show ((hierStep ⟨[], [], []⟩ c).accepted.map candidateItem).take 40 = []
    rw [hid ⟨[], [], []⟩]
    rfl
  | cons b l =>
    show ((((List.insertionSort candidateOrder (c :: b :: l)).foldl hierStep
        ⟨[], [], []⟩).accepted.map candidateItem).take 40) =
      ((((List.insertionSort candidateOrder (b :: l)).foldl hierStep
        ⟨[], [], []⟩).accepted.map candidateItem).take 40)
    have h1 : List.insertionSort candidateOrder (c :: b :: l) =
        List.orderedInsert candidateOrder c (List.insertionSort candidateOrder (b :: l)) :=
      rfl
    rw [h1, foldl_hierStep_orderedInsert hid]

/-- C10: every candidate produced by the OCR fallback has level H3 and
confidence min(0.8, conf/100) for an engine confidence conf above 30; it
clears the hierarchy builder's 0.6 confidence floor exactly when conf is at
least 60, and for conf below 60 the candidate leaves the builder state
untouched and contributes nothing to any final outline, despite clearing
the 30 percent OCR floor. -/
theorem ocr_low_confidence_never_in_outline
    (tokens : List OcrToken) (page_num : Int) (c : HeadingCandidate)
    (st : HState) (cs : List HeadingCandidate)
    (hc : c ∈ _ocr_page tokens page_num) :
    c.level = "H3" ∧
    ∃ t ∈ tokens, 30 < t.conf ∧ c.confidence = min 80 t.conf ∧
      (60 ≤ c.confidence ↔ 60 ≤ t.conf) ∧
      (t.conf < 60 → hierStep st c = st ∧
        _build_document_hierarchy (c :: cs) = _build_document_hierarchy cs) := by
  unfold _ocr_page at hc
  rw [List.mem_filterMap] at hc
  obtain ⟨t, ht, hf⟩ := hc
  by_cases hcond : 30 < t.conf ∧ pyStrip t.text ≠ ""
  · rw [if_pos hcond] at hf
    have hceq : c = ⟨pyStrip t.text, "H3", page_num, min 80 t.conf, 0⟩ :=
      (Option.some_inj.mp hf).symm
    subst hceq
    refine ⟨rfl, t, ht, hcond.1, rfl, ?_, ?_⟩
    · show (60 : Int) ≤ min 80 t.conf ↔ 60 ≤ t.conf
      rw [le_min_iff]
      constructor
      · exact fun h => h.2
      · exact fun h => ⟨by norm_num, h⟩
    · intro hlt
      have hconf : (⟨pyStrip t.text, "H3", page_num, min 80 t.conf, 0⟩ :
          HeadingCandidate).confidence < 60 := by
        show min (80 : Int) t.conf < 60
        exact lt_of_le_of_lt (min_le_right _ _) hlt
      have hid : ∀ st2, hierStep st2 ⟨pyStrip t.text, "H3", page_num, min 80 t.conf, 0⟩ = st2 :=
        fun st2 => hierStep_eq_of_check_false (node_check_false_of_lowconf hconf _ _)
      exact ⟨hid st, build_cons_skip hid cs⟩
  · rw [if_neg hcond] at hf
    cases hf

theorem ocr_low_confidence_never_in_outline_witness :
    (⟨"Heading", "H3", 2, 45, 0⟩ : HeadingCandidate).level = "H3" ∧
    ∃ t ∈ [(⟨" Heading ", 45, 10⟩ : OcrToken)], 30 < t.conf ∧
      (⟨"Heading", "H3", 2, 45, 0⟩ : HeadingCandidate).confidence = min 80 t.conf ∧
      (60 ≤ (⟨"Heading", "H3", 2, 45, 0⟩ : HeadingCandidate).confidence ↔ 60 ≤ t.conf) ∧
      (t.conf < 60 → hierStep ⟨[], [], []⟩ ⟨"Heading", "H3", 2, 45, 0⟩ = ⟨[], [], []⟩ ∧
        _build_document_hierarchy [⟨"Heading", "H3", 2, 45, 0⟩] =
          _build_document_hierarchy []) :=
  ocr_low_confidence_never_in_outline [⟨" Heading ", 45, 10⟩] 2
    ⟨"Heading", "H3", 2, 45, 0⟩ ⟨[], [], []⟩ [] (by decide)

/-- C7: the enhanced scorer emits a candidate exactly when the line passes
its early rejection filters and the accumulated confidence strictly exceeds
0.55, and every emitted candidate's stored confidence lies in (0.55, 1]
(hundredths: in (55, 100]), the raw sum being clamped above at 1. -/
theorem scorer_threshold_and_clamp (line : TextLine) (thr : Thresholds)
    (page_num : Int) :
    ((_analyze_line_with_enhanced_scoring line thr page_num).isSome = true ↔
      (scorerEarlyReject (pyStrip line.text) = false ∧
        55 < enhancedConfidence line thr)) ∧
    (∀ c, _analyze_line_with_enhanced_scoring line thr page_num = some c →
      55 < c.confidence ∧ c.confidence ≤ 100) := by
  unfold _analyze_line_with_enhanced_scoring
  by_cases hr : scorerEarlyReject (pyStrip line.text) = true
  · rw [hr, if_pos rfl]
    constructor
    · constructor
      · intro h
        cases h
      · intro h
        exact Bool.noConfusion h.1
    · intro c h
      cases h
  · rw [Bool.not_eq_true] at hr
    rw [hr, if_neg Bool.false_ne_true]
    by_cases hconf : 55 < enhancedConfidence line thr
    · rw [if_pos hconf]
      constructor
      · exact ⟨fun _ => ⟨rfl, hconf⟩, fun _ => rfl⟩
      · intro c h
        have hceq : c = ⟨pyStrip line.text, enhancedLevel line thr, page_num,
            min (enhancedConfidence line thr) 100, line.y_pos⟩ :=
          (Option.some_inj.mp h).symm
        subst hceq
        constructor
        · show (55 : Int) < min (enhancedConfidence line thr) 100
          exact lt_min hconf (by norm_num)
        · exact min_le_right _ _
    · rw [if_neg hconf]
      constructor
      · constructor
        · intro h
          cases h
        · intro h
          exact absurd h.2 hconf
      · intro c h
        cases h

theorem scorer_threshold_and_clamp_witness :
    55 < (⟨"1. Background Overview", "H1", 1, 100, 700⟩ : HeadingCandidate).confidence ∧
    (⟨"1. Background Overview", "H1", 1, 100, 700⟩ : HeadingCandidate).confidence ≤ 100 :=
  (scorer_threshold_and_clamp ⟨"1. Background Overview", 18, 18, 10, true, 700⟩
    ⟨18, 14, 12⟩ 1).2 ⟨"1. Background Overview", "H1", 1, 100, 700⟩ (by decide)

theorem hierStep_inv {st : HState} (c : HeadingCandidate)
    (h : (st.accepted.map (fun d => normKey d.text)).Nodup ∧
         ∀ k ∈ st.accepted.map (fun d => normKey d.text), k ∈ st.seen) :
    ((hierStep st c).accepted.map (fun d => normKey d.text)).Nodup ∧
    ∀ k ∈ (hierStep st c).accepted.map (fun d => normKey d.text),
      k ∈ (hierStep st c).seen := by
  by_cases hm : normKey c.text ∈ st.seen
  · rw [show hierStep st c = st from by unfold hierStep; rw [if_pos hm]]
    exact h
  · by_cases hq : _node_quality_check c st.path (st.accepted.map candidateItem) = true
    · rw [hierStep_accept hm hq]
      dsimp only
      constructor
      · rw [List.map_append, List.nodup_append]
        refine ⟨h.1, by simp, ?_⟩
        intro a ha hb
        rw [List.map_singleton, List.mem_singleton] at hb
        subst hb
        exact hm (h.2 _ ha)
      · intro k hk
        rw [List.map_append, List.mem_append] at hk
        rcases hk with hk | hk
        · exact List.mem_cons_of_mem _ (h.2 k hk)
        · rw [List.map_singleton, List.mem_singleton] at hk
          subst hk
          exact List.mem_cons_self _ _
    · rw [Bool.not_eq_true] at hq
      rw [hierStep_eq_of_check_false hq]
      exact h

theorem hier_foldl_inv :
    ∀ (l : List HeadingCandidate) (st : HState),
      ((st.accepted.map (fun d => normKey d.text)).Nodup ∧
       ∀ k ∈ st.accepted.map (fun d => normKey d.text), k ∈ st.seen) →
      (((l.foldl hierStep st).accepted.map (fun d => normKey d.text)).Nodup ∧
       ∀ k ∈ (l.foldl hierStep st).accepted.map (fun d => normKey d.text),
         k ∈ (l.foldl hierStep st).seen)
  | [], _, h => h
  | c :: l, st, h => hier_foldl_inv l (hierStep st c) (hierStep_inv c h)

/-- C4: no two OutlineItems of the outline built by _build_document_hierarchy
have texts identical after lowercasing and stripping: every accepted text's
key enters the seen set, and later candidates with a seen key are skipped. -/
theorem outline_no_caseinsensitive_duplicates (cs : List HeadingCandidate) :
    (_build_document_hierarchy cs).Pairwise
      (fun a b => normKey a.text ≠ normKey b.text) := by
  unfold _build_document_hierarchy
  by_cases he : cs.isEmpty
  · rw [if_pos he]
    exact List.Pairwise.nil
  · rw [if_neg he]
    have hinv := hier_foldl_inv (sortCandidates cs) ⟨[], [], []⟩
      ⟨by simp, by intro k hk; simp at hk⟩
    have hnd : List.Pairwise Ne
        (((sortCandidates cs).foldl hierStep ⟨[], [], []⟩).accepted.map
          (fun d => normKey d.text)) := hinv.1
    rw [List.pairwise_map] at hnd
    have h2 : ((acceptedCandidates cs).map candidateItem).Pairwise
        (fun a b => normKey a.text ≠ normKey b.text) :=
      List.pairwise_map.mpr hnd
    exact List.Pairwise.sublist (List.take_sublist 40 _) h2

instance : IsTrans HeadingCandidate candidateOrder := ⟨by
  intro a b c hab hbc
  unfold candidateOrder at *
  rcases hab with h1 | ⟨h1, h2⟩ <;> rcases hbc with h3 | ⟨h3, h4⟩
  · exact Or.inl (lt_trans h1 h3)
  · exact Or.inl (h3 ▸ h1)
  · exact Or.inl (h1.symm ▸ h3)
  · exact Or.inr ⟨h1.trans h3, le_trans h2 h4⟩⟩

instance : IsTotal HeadingCandidate candidateOrder := ⟨by
  intro a b
  unfold candidateOrder
  rcases lt_trichotomy a.page b.page with h | h | h
  · exact Or.inl (Or.inl h)
  · rcases le_total a.position b.position with hp | hp
    · exact Or.inl (Or.inr ⟨h, hp⟩)
    · exact Or.inr (Or.inr ⟨h.symm, hp⟩)
  · exact Or.inr (Or.inl h)⟩

theorem foldl_accepted_sublist :
    ∀ (l : List HeadingCandidate) (st : HState),
      ∃ t, (l.foldl hierStep st).accepted = st.accepted ++ t ∧ t.Sublist l
  | [], st => ⟨[], by simp, List.nil_sublist _⟩
  | c :: l, st => by
    rcases hierStep_cases st c with hc | hc
    · obtain ⟨t, h1, h2⟩ := foldl_accepted_sublist l (hierStep st c)
      refine ⟨t, ?_, h2.cons c⟩
      show (l.foldl hierStep (hierStep st c)).accepted = st.accepted ++ t
      rw [h1, hc]
    · obtain ⟨t, h1, h2⟩ := foldl_accepted_sublist l (hierStep st c)
      refine ⟨c :: t, ?_, h2.cons₂ c⟩
      show (l.foldl hierStep (hierStep st c)).accepted = st.accepted ++ c :: t
      rw [h1, hc]
      simp

/-- C6: the accepted candidates of the hierarchy builder are in
non-decreasing lexicographic (page, position) order, i.e. document reading
order, and in particular the pages of the emitted OutlineItems never
decrease. -/
theorem outline_reading_order (cs : List HeadingCandidate) :
    (acceptedCandidates cs).Pairwise candidateOrder ∧
    ((_build_document_hierarchy cs).map OutlineItem.page).Pairwise (· ≤ ·) := by
  have hsorted : List.Sorted candidateOrder (sortCandidates cs) :=
    List.sorted_insertionSort candidateOrder cs
  obtain ⟨t, h1, h2⟩ := foldl_accepted_sublist (sortCandidates cs) ⟨[], [], []⟩
  have hacc : acceptedCandidates cs = t := by
    unfold acceptedCandidates
    rw [h1]
    simp
  have hp : (acceptedCandidates cs).Pairwise candidateOrder := by
    rw [hacc]
    exact List.Pairwise.sublist h2 hsorted
  refine ⟨hp, ?_⟩
  unfold _build_document_hierarchy
  by_cases he : cs.isEmpty
  · rw [if_pos he]
    exact List.Pairwise.nil
  · rw [if_neg he]
    have hp2 : ((acceptedCandidates cs).map candidateItem).Pairwise
        (fun a b => a.page ≤ b.page) :=
      List.pairwise_map.mpr (hp.imp (fun hab => by
        rcases hab with h | ⟨h, _⟩
        · exact le_of_lt h
        · exact le_of_eq h))
    have hp3 := List.Pairwise.sublist (List.take_sublist 40 _) hp2
    exact List.pairwise_map.mpr hp3

theorem analyze_none_of_early {line : TextLine} (thr : Thresholds) (page_num : Int)
    (h : scorerEarlyReject (pyStrip line.text) = true) :
    _analyze_line_with_enhanced_scoring line thr page_num = none := by
  unfold _analyze_line_with_enhanced_scoring
  rw [h, if_pos rfl]

theorem analyze_some_facts {line : TextLine} {thr : Thresholds} {page_num : Int}
    {c : HeadingCandidate}
    (h : _analyze_line_with_enhanced_scoring line thr page_num = some c) :
    c.text = pyStrip line.text ∧ scorerEarlyReject (pyStrip line.text) = false := by
  unfold _analyze_line_with_enhanced_scoring at h
  by_cases hr : scorerEarlyReject (pyStrip line.text) = true
  · rw [hr, if_pos rfl] at h
    cases h
  · rw [Bool.not_eq_true] at hr
    rw [hr, if_neg Bool.false_ne_true] at h
    by_cases hconf : 55 < enhancedConfidence line thr
    · rw [if_pos hconf] at h
      have hceq := (Option.some_inj.mp h).symm
      subst hceq
      exact ⟨rfl, hr⟩
    · rw [if_neg hconf] at h
      cases h

theorem mem_page_candidates {c : HeadingCandidate} {lines : List TextLine}
    {page_num : Int} (h : c ∈ _extract_heading_candidates_from_page lines page_num) :
    ∃ l ∈ lines, ∃ thr, _analyze_line_with_enhanced_scoring l thr page_num = some c := by
  unfold _extract_heading_candidates_from_page at h
  by_cases he : ((lines.filter (fun l => decide (0 < l.avg_size))).map
      (fun l => l.avg_size)).isEmpty
  · rw [if_pos he] at h
    cases h
  · rw [if_neg he] at h
    rw [List.mem_filterMap] at h
    obtain ⟨l, hl, hf⟩ := h
    exact ⟨l, hl, _, hf⟩

theorem mem_build {item : OutlineItem} {cs : List HeadingCandidate}
    (h : item ∈ _build_document_hierarchy cs) :
    ∃ c ∈ cs, item = candidateItem c := by
  unfold _build_document_hierarchy at h
  by_cases he : cs.isEmpty
  · rw [if_pos he] at h
    cases h
  · rw [if_neg he] at h
    have h2 : item ∈ (acceptedCandidates cs).map candidateItem :=
      (List.take_sublist 40 _).subset h
    rw [List.mem_map] at h2
    obtain ⟨c, hc, heq⟩ := h2
    obtain ⟨t, h1, hsub⟩ := foldl_accepted_sublist (sortCandidates cs) ⟨[], [], []⟩
    have hacc : acceptedCandidates cs = t := by
      unfold acceptedCandidates
      rw [h1]
      simp
    rw [hacc] at hc
    have hc3 : c ∈ cs :=
      (List.perm_insertionSort candidateOrder cs).subset (hsub.subset hc)
    exact ⟨c, hc3, heq.symm⟩

/-- C1 (amended): for a one-page document whose only large-font line is
"1. Introduction" at size 18 with all remaining lines at size 11, the
outline never contains a "1. Introduction" item, because the scorer's
content-fragment filter rejects the line (two words, no trailing colon, not
upper-case); when the remaining lines are body text that the early filters
likewise reject, the outline is empty rather than
[H1 "1. Introduction", page 1]. -/
theorem intro_scenario_outline (lines : List TextLine)
    (hbig : ∃ l ∈ lines, l.text = "1. Introduction" ∧ l.avg_size = 18)
    (hrest : ∀ l ∈ lines, l.text ≠ "1. Introduction" → l.avg_size = 11) :
    (∀ item ∈ extract_outline_items [PdfSrcPage.chars lines],
      item.text ≠ "1. Introduction") ∧
    ((∀ l ∈ lines, l.text ≠ "1. Introduction" →
        scorerEarlyReject (pyStrip l.text) = true) →
      extract_outline_items [PdfSrcPage.chars lines] = []) := by
  have hdoc : documentCandidates [PdfSrcPage.chars lines] =
      _extract_heading_candidates_from_page lines 1 := by
    simp [documentCandidates, documentCandidatesAux, pageCandidates]
  constructor
  · intro item hitem hbad
    unfold extract_outline_items at hitem
    rw [hdoc] at hitem
    obtain ⟨c, hc, heq⟩ := mem_build hitem
    obtain ⟨l, _, thr, hsome⟩ := mem_page_candidates hc
    obtain ⟨htext, hrej⟩ := analyze_some_facts hsome
    rw [heq] at hbad
    simp only [candidateItem] at hbad
    rw [htext] at hbad
    rw [hbad] at hrej
    have hfrag : scorerEarlyReject "1. Introduction" = true := by decide
    rw [hfrag] at hrej
    cases hrej
  · intro hall
    unfold extract_outline_items
    rw [hdoc]
    have hempty : _extract_heading_candidates_from_page lines 1 = [] := by
      unfold _extract_heading_candidates_from_page
      by_cases he : ((lines.filter (fun l => decide (0 < l.avg_size))).map
          (fun l => l.avg_size)).isEmpty
      · rw [if_pos he]
      · rw [if_neg he]
        rw [List.filterMap_eq_nil_iff]
        intro l hl
        by_cases hil : l.text = "1. Introduction"
        · apply analyze_none_of_early
          rw [hil]
          decide
        · exact analyze_none_of_early _ _ (hall l hl hil)
    rw [hempty]
    rfl

/-- C1 counterexample: the one-page document whose single line is
"1. Introduction" at size 18 satisfies the claim's premise (there are no
remaining lines), yet extract_outline produces the empty outline, not
[H1 "1. Introduction", page 1]: the line has fewer than three words, no
trailing colon and is not upper-case, so the content-fragment filter of the
scorer rejects it before any scoring happens. -/
theorem intro_scenario_counterexample :
    (∃ l ∈ [(⟨"1. Introduction", 18, 18, 10, false, 700⟩ : TextLine)],
      l.text = "1. Introduction" ∧ l.avg_size = 18) ∧
    (∀ l ∈ [(⟨"1. Introduction", 18, 18, 10, false, 700⟩ : TextLine)],
      l.text ≠ "1. Introduction" → l.avg_size = 11) ∧
    extract_outline_items
        [PdfSrcPage.chars [⟨"1. Introduction", 18, 18, 10, false, 700⟩]] ≠
      [⟨"H1", "1. Introduction", 1⟩] ∧
    extract_outline_items
        [PdfSrcPage.chars [⟨"1. Introduction", 18, 18, 10, false, 700⟩]] = [] := by
  decide

theorem intro_scenario_outline_witness :
    extract_outline_items [PdfSrcPage.chars
      [⟨"1. Introduction", 18, 18, 10, false, 700⟩,
       ⟨"This is some body text about many different things.", 11, 11, 10, false, 650⟩]] =
      [] :=
  (intro_scenario_outline
    [⟨"1. Introduction", 18, 18, 10, false, 700⟩,
     ⟨"This is some body text about many different things.", 11, 11, 10, false, 650⟩]
    (by decide) (by decide)).2 (by decide)

theorem hasNonWs_of_strip_pos {s : String} (h : 0 < (pyStrip s).data.length) :
    hasNonWs s = true := by
  cases hd : (pyStrip s).data with
  | nil => rw [hd] at h; cases h
  | cons c t =>
    have hc := pyStripL_head_not_ws (hd : pyStripL s.data = c :: t)
    have hm : c ∈ (pyStrip s).data := by rw [hd]; exact List.mem_cons_self _ _
    simp only [hasNonWs, List.any_eq_true]
    exact ⟨c, mem_pyStripL hm, by rw [hc]; rfl⟩

theorem fallbackLoop1_hasNonWs (pdf : List PdfPage) :
    ∀ (l : List Int) (s : String), fallbackLoop1 pdf l = some s → hasNonWs s = true
  | [], s => by
    intro h
    cases h
  | i :: rest, s => by
    intro h
    unfold fallbackLoop1 at h
    cases hidx : pyIdx pdf i with
    | none =>
      rw [hidx] at h
      dsimp only at h
      exact fallbackLoop1_hasNonWs pdf rest s h
    | some page =>
      rw [hidx] at h
      dsimp only at h
      by_cases hcond : pageExtractText page ≠ "" ∧
          50 < (pyStrip (pageExtractText page)).data.length
      · rw [if_pos hcond] at h
        by_cases hsen : 2 < (pySplitDot (pageExtractText page)).length
        · rw [if_pos hsen] at h
          rw [← Option.some_inj.mp h]
          exact hasNonWs_append_right _ (by decide)
        · rw [if_neg hsen] at h
          rw [← Option.some_inj.mp h]
          have hlen := hcond.2
          cases hd : (pyStrip (pageExtractText page)).data with
          | nil => rw [hd] at hlen; simp at hlen
          | cons c t =>
            exact hasNonWs_pyTake hd (pyStripL_head_not_ws hd) (by omega)
      · rw [if_neg hcond] at h
        exact fallbackLoop1_hasNonWs pdf rest s h

theorem pySplitAux_tokens :
    ∀ (l cur : List Char), (∀ c ∈ cur, wsB c = false) →
      ∀ tok ∈ pySplitAux l cur, tok ≠ [] ∧ ∀ c ∈ tok, wsB c = false
  | [], cur, hcur => by
    intro tok htok
    unfold pySplitAux at htok
    by_cases hc : cur.isEmpty = true
    · rw [if_pos hc] at htok
      cases htok
    · rw [if_neg hc] at htok
      rcases List.mem_singleton.mp htok with rfl
      constructor
      · intro he
        rw [List.reverse_eq_nil_iff] at he
        rw [he] at hc
        exact hc rfl
      · intro c hcm
        exact hcur c (List.mem_reverse.mp hcm)
  | a :: t, cur, hcur => by
    intro tok htok
    unfold pySplitAux at htok
    by_cases ha : wsB a = true
    · rw [ha, if_pos rfl] at htok
      by_cases hc : cur.isEmpty = true
      · rw [if_pos hc] at htok
        exact pySplitAux_tokens t [] (by intro c h; cases h) tok htok
      · rw [if_neg hc] at htok
        rcases List.mem_cons.mp htok with rfl | htok2
        · constructor
          · intro he
            rw [List.reverse_eq_nil_iff] at he
            rw [he] at hc
            exact hc rfl
          · intro c hcm
            exact hcur c (List.mem_reverse.mp hcm)
        · exact pySplitAux_tokens t [] (by intro c h; cases h) tok htok2
    · rw [Bool.not_eq_true] at ha
      rw [ha, if_neg Bool.false_ne_true] at htok
      refine pySplitAux_tokens t (a :: cur) ?_ tok htok
      intro c h
      rcases List.mem_cons.mp h with rfl | h2
      · exact ha
      · exact hcur c h2

theorem pySplitAux_ne_nil_of_cur :
    ∀ (l : List Char) (x : Char) (xs : List Char), pySplitAux l (x :: xs) ≠ []
  | [], x, xs => by
    unfold pySplitAux
    rw [if_neg (by simp : ¬((x :: xs).isEmpty = true))]
    simp
  | a :: t, x, xs => by
    unfold pySplitAux
    by_cases ha : wsB a = true
    · rw [ha, if_pos rfl, if_neg (by simp : ¬((x :: xs).isEmpty = true))]
      simp
    · rw [Bool.not_eq_true] at ha
      rw [ha, if_neg Bool.false_ne_true]
      exact pySplitAux_ne_nil_of_cur t a (x :: xs)

theorem pySplitL_ne_nil :
    ∀ {l : List Char}, l.any (fun c => !wsB c) = true → pySplitL l ≠ []
  | a :: t, h => by
    unfold pySplitL pySplitAux
    by_cases ha : wsB a = true
    · rw [ha, if_pos rfl, if_pos (show ([] : List Char).isEmpty = true from rfl)]
      have ht : t.any (fun c => !wsB c) = true := by
        simp only [List.any_cons, Bool.or_eq_true] at h
        rcases h with h | h
        · rw [ha] at h
          cases h
        · exact h
      exact pySplitL_ne_nil ht
    · rw [Bool.not_eq_true] at ha
      rw [ha, if_neg Bool.false_ne_true]
      exact pySplitAux_ne_nil_of_cur t a []

theorem hasNonWs_join_split {text : String} (h : hasNonWs text = true) :
    hasNonWs (pyJoin " " (pySplitS text)) = true := by
  have hne : pySplitL text.data ≠ [] := pySplitL_ne_nil h
  cases hsp : pySplitL text.data with
  | nil => exact absurd hsp hne
  | cons tk rest =>
    have htk := pySplitAux_tokens text.data [] (by intro c hc; cases hc) tk
      (by rw [show pySplitAux text.data [] = pySplitL text.data from rfl, hsp]
          exact List.mem_cons_self _ _)
    have htkS : hasNonWs (String.mk tk) = true := by
      cases htok : tk with
      | nil => exact absurd htok htk.1
      | cons c t2 =>
        simp only [hasNonWs, List.any_cons, Bool.or_eq_true]
        exact Or.inl (by rw [htk.2 c (by rw [htok]; exact List.mem_cons_self _ _)]; rfl)
    refine hasNonWs_pyJoin ?_ htkS
    unfold pySplitS
    rw [hsp]
    exact List.mem_cons_self _ _

theorem fallbackLoop2_hasNonWs :
    ∀ (l : List PdfPage) (s : String), fallbackLoop2 l = some s → hasNonWs s = true
  | [], s => by
    intro h
    cases h
  | page :: rest, s => by
    intro h
    unfold fallbackLoop2 at h
    by_cases hcond : pageExtractText page ≠ "" ∧
        20 < (pyStrip (pageExtractText page)).data.length
    · rw [if_pos hcond] at h
      have htext : hasNonWs (pageExtractText page) = true :=
        hasNonWs_of_strip_pos (by omega)
      by_cases hlen : 100 < (pyJoin " " (pySplitS (pageExtractText page))).data.length
      · rw [if_pos hlen] at h
        rw [← Option.some_inj.mp h]
        exact hasNonWs_append_right _ (by decide)
      · rw [if_neg hlen] at h
        rw [← Option.some_inj.mp h]
        exact hasNonWs_join_split htext
    · rw [if_neg hcond] at h
      exact fallbackLoop2_hasNonWs rest s h

theorem fallbackSynth_hasNonWs (heading : Heading) :
    hasNonWs (fallbackSynth heading) = true := by
  unfold fallbackSynth
  apply hasNonWs_append_left
  apply hasNonWs_append_left
  apply hasNonWs_append_left
  apply hasNonWs_append_left
  decide

theorem fallbackLoops_hasNonWs (pdf : List PdfPage) (heading : Heading) :
    hasNonWs (fallbackLoops pdf heading) = true := by
  unfold fallbackLoops
  cases h1 : fallbackLoop1 pdf
      (pyRange (max 0 (heading.page - 2)) (min (pdf.length : Int) (heading.page + 2))) with
  | some s => exact fallbackLoop1_hasNonWs pdf _ s h1
  | none =>
    cases h2 : fallbackLoop2 pdf with
    | some s => exact fallbackLoop2_hasNonWs pdf s h2
    | none => exact fallbackSynth_hasNonWs heading

theorem fallback_hasNonWs (pdf : List PdfPage) (heading : Heading) :
    hasNonWs (_fallback_extract_content pdf heading) = true := by
  unfold _fallback_extract_content
  by_cases hle : (heading.page : Int) ≤ (pdf.length : Int)
  · rw [if_pos hle]
    cases hidx : pyIdx pdf (heading.page - 1) with
    | none => exact fallbackSynth_hasNonWs heading
    | some page =>
      dsimp only
      by_cases hcond : pageExtractText page ≠ "" ∧ pyStrip (pageExtractText page) ≠ ""
      · rw [if_pos hcond]
        by_cases hsen : 3 < (pySplitDot (pageExtractText page)).length
        · rw [if_pos hsen]
          exact hasNonWs_append_right _ (by decide)
        · rw [if_neg hsen]
          exact hasNonWs_of_pyStrip_ne hcond.2
      · rw [if_neg hcond]
        exact fallbackLoops_hasNonWs pdf heading
  · rw [if_neg hle]
    exact fallbackLoops_hasNonWs pdf heading

theorem sectionPagesLoop_ret {pdf : List PdfPage} {heading : Heading}
    {endH : Option Heading} {spn : Int} {sy : ℚ} {epn : Int} {ey : ℚ} :
    ∀ (idxs : List Int) (content : List String) (s : String),
      sectionPagesLoop pdf heading endH spn sy epn ey idxs content = .ret s →
      s = _fallback_extract_content pdf heading
  | [], _, s => by
    intro h
    cases h
  | i :: rest, content, s => by
    intro h
    unfold sectionPagesLoop at h
    by_cases hbreak : (pdf.length : Int) ≤ i
    · rw [if_pos hbreak] at h
      cases h
    · rw [if_neg hbreak] at h
      cases hidx : pyIdx pdf i with
      | none =>
        rw [hidx] at h
        cases h
      | some page =>
        rw [hidx] at h
        dsimp only at h
        by_cases hdeg : cropBottom endH i epn ey page ≤ cropTop i spn sy
        · rw [if_pos hdeg] at h
          by_cases hne : _fallback_extract_content pdf heading ≠ ""
          · rw [if_pos hne] at h
            cases h
            rfl
          · rw [if_neg hne] at h
            exact sectionPagesLoop_ret rest content s h
        · rw [if_neg hdeg] at h
          by_cases htext : sectionPageText page (cropTop i spn sy)
                (cropBottom endH i epn ey page) ≠ "" ∧
              pyStrip (sectionPageText page (cropTop i spn sy)
                (cropBottom endH i epn ey page)) ≠ ""
          · rw [if_pos htext] at h
            exact sectionPagesLoop_ret rest _ s h
          · rw [if_neg htext] at h
            exact sectionPagesLoop_ret rest content s h

theorem sectionPagesLoop_done {pdf : List PdfPage} {heading : Heading}
    {endH : Option Heading} {spn : Int} {sy : ℚ} {epn : Int} {ey : ℚ} :
    ∀ (idxs : List Int) (content content2 : List String),
      (∀ x ∈ content, hasNonWs x = true) →
      sectionPagesLoop pdf heading endH spn sy epn ey idxs content = .done content2 →
      ∀ x ∈ content2, hasNonWs x = true
  | [], content, content2, hc => by
    intro h
    cases h
    exact hc
  | i :: rest, content, content2, hc => by
    intro h
    unfold sectionPagesLoop at h
    by_cases hbreak : (pdf.length : Int) ≤ i
    · rw [if_pos hbreak] at h
      cases h
      exact hc
    · rw [if_neg hbreak] at h
      cases hidx : pyIdx pdf i with
      | none =>
        rw [hidx] at h
        cases h
      | some page =>
        rw [hidx] at h
        dsimp only at h
        by_cases hdeg : cropBottom endH i epn ey page ≤ cropTop i spn sy
        · rw [if_pos hdeg] at h
          by_cases hne : _fallback_extract_content pdf heading ≠ ""
          · rw [if_pos hne] at h
            cases h
          · rw [if_neg hne] at h
            exact sectionPagesLoop_done rest content content2 hc h
        · rw [if_neg hdeg] at h
          by_cases htext : sectionPageText page (cropTop i spn sy)
                (cropBottom endH i epn ey page) ≠ "" ∧
              pyStrip (sectionPageText page (cropTop i spn sy)
                (cropBottom endH i epn ey page)) ≠ ""
          · rw [if_pos htext] at h
            refine sectionPagesLoop_done rest _ content2 ?_ h
            intro x hx
            rcases List.mem_append.mp hx with hx | hx
            · exact hc x hx
            · rcases List.mem_singleton.mp hx with rfl
              exact hasNonWs_of_pyStrip_ne htext.2
          · rw [if_neg htext] at h
            exact sectionPagesLoop_done rest content content2 hc h

/-- C2: extract_section_content never returns an empty or whitespace-only
string, for any pdf and any (heading, allHeadings) pair, even when the
heading is absent from the list: every branch of the extractor and of its
fallback chain ends in a string with a non-whitespace character, the chain
terminating in the unconditional synthesized sentence. -/
theorem section_content_never_blank (pdf : List PdfPage) (heading : Heading)
    (all_headings : List Heading) :
    extract_section_content pdf heading all_headings ≠ "" ∧
    hasNonWs (extract_section_content pdf heading all_headings) = true := by
  suffices h : hasNonWs (extract_section_content pdf heading all_headings) = true by
    exact ⟨ne_empty_of_hasNonWs h, h⟩
  unfold extract_section_content
  cases hio : pyIndexOf heading all_headings with
  | none => exact fallback_hasNonWs pdf heading
  | some idx =>
    dsimp only
    cases hep : sectionEndParams pdf (all_headings.get? (idx + 1)) with
    | none => exact fallback_hasNonWs pdf heading
    | some ep =>
      dsimp only
      cases hloop : sectionPagesLoop pdf heading (all_headings.get? (idx + 1))
          heading.page (heading.position.getD 0) ep.1 ep.2
          (pyRange (heading.page - 1) (min ep.1 (pdf.length : Int))) [] with
      | ret s =>
        dsimp only
        rw [sectionPagesLoop_ret _ _ _ hloop]
        exact fallback_hasNonWs pdf heading
      | exc =>
        dsimp only
        exact fallback_hasNonWs pdf heading
      | done content =>
        dsimp only
        by_cases hce : content.isEmpty = true
        · rw [if_pos hce]
          exact fallback_hasNonWs pdf heading
        · rw [if_neg hce]
          have hinv := sectionPagesLoop_done _ _ _ (by intro x hx; cases hx) hloop
          cases hc2 : content with
          | nil =>
            rw [hc2] at hce
            exact absurd rfl hce
          | cons x rest =>
            have hx : hasNonWs x = true := hinv x (by rw [hc2]; exact List.mem_cons_self _ _)
            exact hasNonWs_pyStrip_of_hasNonWs (hasNonWs_collapseWs
              (hasNonWs_pyJoin (List.mem_cons_self _ _) hx))

/-- Word-model property of the boundary-slicing analysis: a non-empty text
with no whitespace characters, as produced by a geometry provider that
yields one record per word. -/
def wordish (s : String) : Prop :=
  s.data ≠ [] ∧ ∀ c ∈ s.data, wsB c = false

/-- Normal form of a text under the cleanup of extract_section_content: a
fixed point of whitespace collapsing whose first and last characters are not
whitespace (hence also a fixed point of stripping). -/
def niceStr (s : String) : Prop :=
  collapseWsAux s.data false = s.data ∧
  (∃ c t, s.data = c :: t ∧ wsB c = false) ∧
  (∃ r d, s.data = r ++ [d] ∧ wsB d = false)

theorem collapse_all_nonws :
    ∀ {l : List Char}, (∀ c ∈ l, wsB c = false) → ∀ b, collapseWsAux l b = l
  | [], _, _ => rfl
  | c :: t, h, b => by
    unfold collapseWsAux
    rw [h c (List.mem_cons_self _ _), if_neg Bool.false_ne_true]
    rw [collapse_all_nonws (fun d hd => h d (List.mem_cons_of_mem _ hd)) false]

theorem wordish_nice {s : String} (h : wordish s) : niceStr s := by
  obtain ⟨hne, hch⟩ := h
  refine ⟨collapse_all_nonws hch false, ?_, ?_⟩
  · cases hd : s.data with
    | nil => exact absurd hd hne
    | cons c t => exact ⟨c, t, rfl, hch c (by rw [hd]; exact List.mem_cons_self _ _)⟩
  · refine ⟨s.data.dropLast, s.data.getLast hne, (List.dropLast_append_getLast hne).symm, ?_⟩
    exact hch _ (List.getLast_mem hne)

theorem collapseWsAux_cons (c : Char) (t : List Char) (b : Bool) :
    collapseWsAux (c :: t) b =
      if wsB c = true then
        (if b = true then collapseWsAux t true else ' ' :: collapseWsAux t true)
      else c :: collapseWsAux t false := rfl

theorem collapse_mealy :
    ∀ (a b : List Char) (s : Bool),
      collapseWsAux (a ++ b) s =
        collapseWsAux a s ++ collapseWsAux b (a.foldl (fun _ c => wsB c) s)
  | [], _, _ => rfl
  | c :: a, b, s => by
    have hfold : ((c :: a).foldl (fun _ c => wsB c) s) =
        a.foldl (fun _ c => wsB c) (wsB c) := by
      rw [List.foldl_cons]
    rw [hfold, List.cons_append, collapseWsAux_cons, collapseWsAux_cons]
    by_cases hc : wsB c = true
    · rw [hc, if_pos rfl, if_pos rfl]
      cases s with
      | true =>
        rw [if_pos rfl, if_pos rfl]
        exact collapse_mealy a b true
      | false =>
        rw [if_neg Bool.false_ne_true, if_neg Bool.false_ne_true]
        rw [collapse_mealy a b true]
        rfl
    · rw [Bool.not_eq_true] at hc
      rw [hc, if_neg Bool.false_ne_true, if_neg Bool.false_ne_true]
      rw [collapse_mealy a b false]
      rfl

theorem collapse_state_irrel :
    ∀ {l : List Char}, (∀ c t, l = c :: t → wsB c = false) →
      collapseWsAux l true = collapseWsAux l false
  | [], _ => rfl
  | c :: t, h => by
    unfold collapseWsAux
    rw [h c t rfl, if_neg Bool.false_ne_true, if_neg Bool.false_ne_true]

theorem foldl_ws_last (r : List Char) (d : Char) (s : Bool) :
    ((r ++ [d]).foldl (fun _ c => wsB c) s) = wsB d := by
  rw [List.foldl_append]
  rfl

theorem nice_join :
    ∀ {parts : List String}, parts ≠ [] → (∀ p ∈ parts, niceStr p) →
      niceStr (pyJoin " " parts)
  | [], h, _ => absurd rfl h
  | [x], _, hp => hp x (List.mem_singleton.mpr rfl)
  | x :: y :: t, _, hp => by
    have hx : niceStr x := hp x (List.mem_cons_self _ _)
    have hrest : niceStr (pyJoin " " (y :: t)) :=
      nice_join (by simp) (fun p hpm => hp p (List.mem_cons_of_mem _ hpm))
    obtain ⟨hxc, ⟨c, ct, hxh, hxhw⟩, ⟨r, d, hxl, hxlw⟩⟩ := hx
    obtain ⟨hrc, ⟨c2, ct2, hrh, hrhw⟩, ⟨r2, d2, hrl, hrlw⟩⟩ := hrest
    show niceStr (x ++ " " ++ pyJoin " " (y :: t))
    have hdata : (x ++ " " ++ pyJoin " " (y :: t)).data =
        x.data ++ (' ' :: (pyJoin " " (y :: t)).data) := by
      rw [data_append, data_append, List.append_assoc]
      rfl
    refine ⟨?_, ?_, ?_⟩
    · rw [hdata]
      rw [collapse_mealy]
      rw [hxc]
      have hst : (x.data.foldl (fun _ c => wsB c) false) = false := by
        rw [hxl, foldl_ws_last, hxlw]
      rw [hst]
      show x.data ++ collapseWsAux (' ' :: (pyJoin " " (y :: t)).data) false =
        x.data ++ (' ' :: (pyJoin " " (y :: t)).data)
      unfold collapseWsAux
      rw [show wsB ' ' = true from rfl, if_pos rfl, if_neg Bool.false_ne_true]
      rw [collapse_state_irrel (fun c3 t3 h3 => by
        rw [hrh] at h3
        cases h3
        exact hrhw)]
      rw [hrc]
    · exact ⟨c, ct ++ (' ' :: (pyJoin " " (y :: t)).data), by rw [hdata, hxh]; rfl, hxhw⟩
    · refine ⟨x.data ++ (' ' :: r2), d2, ?_, hrlw⟩
      rw [hdata, hrl]
      simp

theorem stripL_id {l : List Char} {c : Char} {t : List Char} {r : List Char} {d : Char}
    (hh : l = c :: t) (hcw : wsB c = false) (hl : l = r ++ [d]) (hdw : wsB d = false) :
    pyStripL l = l := by
  unfold pyStripL
  rw [hh, List.dropWhile_cons_of_neg (by rw [hcw]; exact Bool.false_ne_true), ← hh, hl]
  rw [show (r ++ [d]).reverse = d :: r.reverse by simp]
  rw [List.dropWhile_cons_of_neg (by rw [hdw]; exact Bool.false_ne_true)]
  rw [show (d :: r.reverse).reverse = r ++ [d] by simp]

theorem strip_id_of_nice {s : String} (h : niceStr s) : pyStrip s = s := by
  obtain ⟨_, ⟨c, t, hh, hcw⟩, ⟨r, d, hl, hdw⟩⟩ := h
  apply String.ext
  show pyStripL s.data = s.data
  exact stripL_id hh hcw hl hdw

theorem collapse_id_of_nice {s : String} (h : niceStr s) : collapseWs s = s := by
  apply String.ext
  exact h.1

theorem nice_ne_empty {s : String} (h : niceStr s) : s ≠ "" := by
  obtain ⟨_, ⟨c, t, hh, _⟩, _⟩ := h
  intro he
  rw [he] at hh
  cases hh

theorem join_append :
    ∀ (g L : List String), g ≠ [] →
      pyJoin " " (g ++ L) =
        pyJoin " " g ++ (if L.isEmpty then "" else " " ++ pyJoin " " L)
  | [], _, hg => absurd rfl hg
  | [x], L, _ => by
    cases L with
    | nil =>
      show pyJoin " " [x] = pyJoin " " [x] ++ ""
      rw [show pyJoin " " [x] = x from rfl]
      exact (by simp : x = x ++ "")
    | cons y t =>
      show pyJoin " " (x :: y :: t) = x ++ (" " ++ pyJoin " " (y :: t))
      show x ++ " " ++ pyJoin " " (y :: t) = x ++ (" " ++ pyJoin " " (y :: t))
      apply String.ext
      simp [data_append]
  | x :: z :: g, L, _ => by
    have hih := join_append (z :: g) L (by simp)
    show pyJoin " " (x :: (z :: g) ++ L) =
      pyJoin " " (x :: z :: g) ++ (if L.isEmpty then "" else " " ++ pyJoin " " L)
    have h1 : pyJoin " " (x :: (z :: g ++ L)) = x ++ " " ++ pyJoin " " (z :: g ++ L) := by
      cases g with
      | nil =>
        cases L with
        | nil => rfl
        | cons y t => rfl
      | cons w g2 => rfl
    rw [show (x :: z :: g) ++ L = x :: (z :: g ++ L) from rfl, h1, hih]
    show x ++ " " ++ (pyJoin " " (z :: g) ++ _) =
      (x ++ " " ++ pyJoin " " (z :: g)) ++ _
    apply String.ext
    simp [data_append]

theorem listIsEmpty_iff {α : Type} (l : List α) : l.isEmpty = true ↔ l = [] := by
  cases l <;> simp

theorem nice_group_join {ws : List String} (hne : ws ≠ [])
    (hw : ∀ s ∈ ws, wordish s) : niceStr (pyJoin " " ws) :=
  nice_join hne (fun p hp => wordish_nice (hw p hp))

theorem sectionPagesLoop_cons (pdf : List PdfPage) (heading : Heading)
    (endH : Option Heading) (spn : Int) (sy : ℚ) (epn : Int) (ey : ℚ)
    (i : Int) (rest : List Int) (content : List String) :
    sectionPagesLoop pdf heading endH spn sy epn ey (i :: rest) content =
      if (pdf.length : Int) ≤ i then .done content
      else
        match pyIdx pdf i with
        | none => .exc
        | some page =>
          if cropBottom endH i epn ey page ≤ cropTop i spn sy then
            (if _fallback_extract_content pdf heading ≠ "" then
              .ret (_fallback_extract_content pdf heading)
            else sectionPagesLoop pdf heading endH spn sy epn ey rest content)
          else
            if sectionPageText page (cropTop i spn sy)
                  (cropBottom endH i epn ey page) ≠ "" ∧
                pyStrip (sectionPageText page (cropTop i spn sy)
                  (cropBottom endH i epn ey page)) ≠ "" then
              sectionPagesLoop pdf heading endH spn sy epn ey rest
                (content ++ [pyStrip (sectionPageText page (cropTop i spn sy)
                  (cropBottom endH i epn ey page))])
            else sectionPagesLoop pdf heading endH spn sy epn ey rest content := rfl

theorem sectionPagesLoop_nil (pdf : List PdfPage) (heading : Heading)
    (endH : Option Heading) (spn : Int) (sy : ℚ) (epn : Int) (ey : ℚ)
    (content : List String) :
    sectionPagesLoop pdf heading endH spn sy epn ey [] content = .done content := rfl

theorem loop_step_group {pdf : List PdfPage} {heading : Heading}
    {endH : Option Heading} {spn : Int} {sy : ℚ} {epn : Int} {ey : ℚ} {i : Int}
    {rest : List Int} {content : List String} {page : PdfPage} {ws : List String}
    (hlen : ¬((pdf.length : Int) ≤ i))
    (hpy : pyIdx pdf i = some page)
    (hnd : ¬(cropBottom endH i epn ey page ≤ cropTop i spn sy))
    (htext : sectionPageText page (cropTop i spn sy) (cropBottom endH i epn ey page) =
      pyJoin " " ws)
    (hws : ∀ s ∈ ws, wordish s) :
    sectionPagesLoop pdf heading endH spn sy epn ey (i :: rest) content =
      sectionPagesLoop pdf heading endH spn sy epn ey rest
        (content ++ (if ws.isEmpty then [] else [pyJoin " " ws])) := by
  rw [sectionPagesLoop_cons, if_neg hlen, hpy]
  dsimp only
  rw [if_neg hnd, htext]
  cases hwsnil : ws with
  | nil =>
    rw [if_neg (by
      intro hand
      exact hand.1 rfl)]
    rw [show (if ([] : List String).isEmpty then ([] : List String)
        else [pyJoin " " ([] : List String)]) = [] from rfl, List.append_nil]
  | cons w ws2 =>
    have hnice : niceStr (pyJoin " " (w :: ws2)) :=
      nice_group_join (by simp) (fun s hs => hws s (by rw [hwsnil]; exact hs))
    have hne := nice_ne_empty hnice
    have hstripid := strip_id_of_nice hnice
    rw [if_pos ⟨hne, by rw [hstripid]; exact hne⟩, hstripid]
    rw [show (if (w :: ws2).isEmpty then ([] : List String)
        else [pyJoin " " (w :: ws2)]) = [pyJoin " " (w :: ws2)] from rfl]

theorem join_three_groups (g1 g2 g3 : List String) :
    pyJoin " " (((([] : List String) ++
        (if g1.isEmpty then [] else [pyJoin " " g1])) ++
        (if g2.isEmpty then [] else [pyJoin " " g2])) ++
        (if g3.isEmpty then [] else [pyJoin " " g3])) =
      pyJoin " " (g1 ++ g2 ++ g3) := by
  cases g1 with
  | nil =>
    cases g2 with
    | nil =>
      cases g3 with
      | nil => rfl
      | cons c3 t3 => rfl
    | cons c2 t2 =>
      cases g3 with
      | nil =>
        rw [List.append_nil]
        rfl
      | cons c3 t3 =>
        conv_rhs => rw [List.nil_append]
        rw [join_append (c2 :: t2) (c3 :: t3) (by simp)]
        show pyJoin " " (c2 :: t2) ++ " " ++ pyJoin " " (c3 :: t3) = _
        apply String.ext
        simp [data_append]
  | cons c1 t1 =>
    cases g2 with
    | nil =>
      cases g3 with
      | nil =>
        rw [List.append_nil, List.append_nil]
        rfl
      | cons c3 t3 =>
        rw [List.append_nil]
        rw [join_append (c1 :: t1) (c3 :: t3) (by simp)]
        show pyJoin " " (c1 :: t1) ++ " " ++ pyJoin " " (c3 :: t3) = _
        apply String.ext
        simp [data_append]
    | cons c2 t2 =>
      cases g3 with
      | nil =>
        rw [List.append_nil]
        rw [join_append (c1 :: t1) (c2 :: t2) (by simp)]
        show pyJoin " " (c1 :: t1) ++ " " ++ pyJoin " " (c2 :: t2) = _
        apply String.ext
        simp [data_append]
      | cons c3 t3 =>
        conv_rhs => rw [List.append_assoc]
        rw [join_append (c1 :: t1) ((c2 :: t2) ++ (c3 :: t3)) (by simp)]
        rw [join_append (c2 :: t2) (c3 :: t3) (by simp)]
        show pyJoin " " (c1 :: t1) ++ " " ++
            (pyJoin " " (c2 :: t2) ++ " " ++ pyJoin " " (c3 :: t3)) = _
        apply String.ext
        simp [data_append]

/-- C3 counterexample: in this five-page document with headings on pages 1, 3
and 5, the page-3 heading sits at vertical position 50, and the only word of
page 3 is "Alpha" at position 10, strictly above the heading.  Every crop of
the primary pass is empty, so extract_section_content takes the fallback path,
which rereads the full heading page with no boundary applied and returns
"Alpha" — text located strictly before the page-3 heading's position, which
the claim says is never included. -/
theorem boundary_slicing_counterexample :
    extract_section_content
        [⟨100, [⟨5, "One"⟩]⟩, ⟨100, [⟨5, "Two"⟩]⟩, ⟨100, [⟨10, "Alpha"⟩]⟩,
          ⟨100, []⟩, ⟨100, [⟨30, "Beta"⟩]⟩]
        ⟨"H1", "T3", 3, some 50⟩
        [⟨"H1", "T1", 1, some 5⟩, ⟨"H1", "T3", 3, some 50⟩,
          ⟨"H1", "T5", 5, some 20⟩] = "Alpha" ∧
    ([⟨100, [⟨5, "One"⟩]⟩, ⟨100, [⟨5, "Two"⟩]⟩, ⟨100, [⟨10, "Alpha"⟩]⟩,
      ⟨100, []⟩, ⟨100, [⟨30, "Beta"⟩]⟩] : List PdfPage).get? 2 =
      some ⟨100, [⟨10, "Alpha"⟩]⟩ ∧
    (10 : ℚ) < 50 := by
  refine ⟨?_, by decide, by decide⟩
  decide

/-- C3 (amended): for a five-page document whose target heading lies on page 3
at position sy strictly inside the page and whose next heading lies on page 5
at position ey strictly inside that page, when every word of the document is
whitespace-free non-empty text positioned within its page, the interior page
has positive height, and the spanned region holds at least one word, then
extract_section_content returns exactly the words of the span joined by single
spaces: the page-3 words at or below sy, all of page 4, and the page-5 words
at or above ey — so no text strictly before the page-3 heading's position and
none strictly after the page-5 heading's position.  When the span holds no
word the function instead falls back to unbounded page rereads (see the
counterexample), so the non-empty-span proviso is necessary. -/
theorem boundary_slicing_span (p1 p2 p3 p4 p5 : PdfPage) (h e : Heading)
    (hs : List Heading) (n : Nat) (sy ey : ℚ)
    (hidx : pyIndexOf h hs = some n)
    (hnext : hs.get? (n + 1) = some e)
    (hpage : h.page = 3) (hepage : e.page = 5)
    (hpos : h.position = some sy) (hepos : e.position = some ey)
    (hsy1 : 0 < sy) (hsy2 : sy < p3.height)
    (hey1 : 0 < ey) (hey2 : ey < p5.height)
    (hp4 : 0 < p4.height)
    (hwords : ∀ p ∈ [p1, p2, p3, p4, p5], ∀ w ∈ p.words,
      w.txt.data ≠ [] ∧ (∀ c ∈ w.txt.data, wsB c = false) ∧
        0 ≤ w.pos ∧ w.pos ≤ p.height)
    (hspan : (p3.words.filter (fun w => decide (sy ≤ w.pos))).map PageWord.txt ++
        p4.words.map PageWord.txt ++
        (p5.words.filter (fun w => decide (w.pos ≤ ey))).map PageWord.txt ≠ []) :
    extract_section_content [p1, p2, p3, p4, p5] h hs =
      pyJoin " "
        ((p3.words.filter (fun w => decide (sy ≤ w.pos))).map PageWord.txt ++
          p4.words.map PageWord.txt ++
          (p5.words.filter (fun w => decide (w.pos ≤ ey))).map PageWord.txt) := by
  have hw3 := hwords p3 (by simp)
  have hw4 := hwords p4 (by simp)
  have hw5 := hwords p5 (by simp)
  have htop3 : cropTop 2 3 sy = sy := by
    unfold cropTop
    rw [if_pos (show (2 : Int) = 3 - 1 from by decide)]
    exact max_eq_right (le_of_lt hsy1)
  have htop4 : cropTop 3 3 sy = 0 := by
    unfold cropTop
    rw [if_neg (show ¬((3 : Int) = 3 - 1) from by decide)]
  have htop5 : cropTop 4 3 sy = 0 := by
    unfold cropTop
    rw [if_neg (show ¬((4 : Int) = 3 - 1) from by decide)]
  have hbot3 : cropBottom (some e) 2 5 ey p3 = p3.height := by
    unfold cropBottom
    rw [if_neg (fun hand => absurd hand.2 (by decide))]
  have hbot4 : cropBottom (some e) 3 5 ey p4 = p4.height := by
    unfold cropBottom
    rw [if_neg (fun hand => absurd hand.2 (by decide))]
  have hbot5 : cropBottom (some e) 4 5 ey p5 = ey := by
    unfold cropBottom
    rw [if_pos ⟨rfl, by decide⟩]
    exact min_eq_right (le_of_lt hey2)
  have hnd3 : ¬(cropBottom (some e) 2 5 ey p3 ≤ cropTop 2 3 sy) := by
    rw [hbot3, htop3]
    exact not_le.mpr hsy2
  have hnd4 : ¬(cropBottom (some e) 3 5 ey p4 ≤ cropTop 3 3 sy) := by
    rw [hbot4, htop4]
    exact not_le.mpr hp4
  have hnd5 : ¬(cropBottom (some e) 4 5 ey p5 ≤ cropTop 4 3 sy) := by
    rw [hbot5, htop5]
    exact not_le.mpr hey1
  have htext3 : sectionPageText p3 (cropTop 2 3 sy) (cropBottom (some e) 2 5 ey p3) =
      pyJoin " " ((p3.words.filter (fun w => decide (sy ≤ w.pos))).map PageWord.txt) := by
    rw [htop3, hbot3]
    unfold sectionPageText
    rw [if_pos (Or.inl hsy1)]
    unfold cropExtractText
    rw [List.filter_congr (fun w hw => by
      rw [decide_eq_true ((hw3 w hw).2.2.2), Bool.and_true])]
  have htext4 : sectionPageText p4 (cropTop 3 3 sy) (cropBottom (some e) 3 5 ey p4) =
      pyJoin " " (p4.words.map PageWord.txt) := by
    rw [htop4, hbot4]
    unfold sectionPageText
    rw [if_neg (by
      rintro (hc | hc) <;> exact absurd hc (lt_irrefl _))]
    unfold pageExtractText
    rfl
  have htext5 : sectionPageText p5 (cropTop 4 3 sy) (cropBottom (some e) 4 5 ey p5) =
      pyJoin " " ((p5.words.filter (fun w => decide (w.pos ≤ ey))).map PageWord.txt) := by
    rw [htop5, hbot5]
    unfold sectionPageText
    rw [if_pos (Or.inr hey2)]
    unfold cropExtractText
    rw [List.filter_congr (fun w hw => by
      rw [decide_eq_true ((hw5 w hw).2.2.1), Bool.true_and])]
  have hws3 : ∀ s ∈ (p3.words.filter (fun w => decide (sy ≤ w.pos))).map PageWord.txt,
      wordish s := by
    intro s hsmem
    rcases List.mem_map.mp hsmem with ⟨w, hwmem, rfl⟩
    have hw := hw3 w (List.mem_filter.mp hwmem).1
    exact ⟨hw.1, hw.2.1⟩
  have hws4 : ∀ s ∈ p4.words.map PageWord.txt, wordish s := by
    intro s hsmem
    rcases List.mem_map.mp hsmem with ⟨w, hwmem, rfl⟩
    have hw := hw4 w hwmem
    exact ⟨hw.1, hw.2.1⟩
  have hws5 : ∀ s ∈ (p5.words.filter (fun w => decide (w.pos ≤ ey))).map PageWord.txt,
      wordish s := by
    intro s hsmem
    rcases List.mem_map.mp hsmem with ⟨w, hwmem, rfl⟩
    have hw := hw5 w (List.mem_filter.mp hwmem).1
    exact ⟨hw.1, hw.2.1⟩
  have hGnil : ∀ g : List String,
      (if g.isEmpty then ([] : List String) else [pyJoin " " g]) = [] → g = [] := by
    intro g hg
    cases g with
    | nil => rfl
    | cons c t => exact List.noConfusion hg
  have hGnice : ∀ g : List String, (∀ s ∈ g, wordish s) →
      ∀ s ∈ (if g.isEmpty then ([] : List String) else [pyJoin " " g]), niceStr s := by
    intro g hg s hsmem
    cases g with
    | nil => exact absurd hsmem (by simp)
    | cons c t =>
      have hseq : s = pyJoin " " (c :: t) := by
        simpa using hsmem
      rw [hseq]
      exact nice_group_join (by simp) hg
  unfold extract_section_content
  rw [hidx]
  dsimp only
  rw [hnext]
  rw [show sectionEndParams [p1, p2, p3, p4, p5] (some e) = some (5, ey) from by
    unfold sectionEndParams
    dsimp only
    rw [hepage, show pyIdx [p1, p2, p3, p4, p5] ((5 : Int) - 1) = some p5 from rfl]
    dsimp only
    rw [hepos]
    rfl]
  dsimp only
  rw [hpos, Option.getD_some, hpage]
  rw [show (([p1, p2, p3, p4, p5] : List PdfPage).length : Int) = 5 from by norm_num]
  rw [show pyRange ((3 : Int) - 1) (min (5 : Int) 5) = [2, 3, 4] from by decide]
  rw [loop_step_group
        (show ¬((([p1, p2, p3, p4, p5] : List PdfPage).length : Int) ≤ 2) from by norm_num)
        (show pyIdx [p1, p2, p3, p4, p5] 2 = some p3 from rfl) hnd3 htext3 hws3,
      loop_step_group
        (show ¬((([p1, p2, p3, p4, p5] : List PdfPage).length : Int) ≤ 3) from by norm_num)
        (show pyIdx [p1, p2, p3, p4, p5] 3 = some p4 from rfl) hnd4 htext4 hws4,
      loop_step_group
        (show ¬((([p1, p2, p3, p4, p5] : List PdfPage).length : Int) ≤ 4) from by norm_num)
        (show pyIdx [p1, p2, p3, p4, p5] 4 = some p5 from rfl) hnd5 htext5 hws5,
      sectionPagesLoop_nil]
  dsimp only
  have hcontent_ne :
      ((([] : List String) ++
          (if ((p3.words.filter (fun w => decide (sy ≤ w.pos))).map
              PageWord.txt).isEmpty then []
            else [pyJoin " " ((p3.words.filter (fun w => decide (sy ≤ w.pos))).map
              PageWord.txt)])) ++
        (if (p4.words.map PageWord.txt).isEmpty then []
          else [pyJoin " " (p4.words.map PageWord.txt)])) ++
        (if ((p5.words.filter (fun w => decide (w.pos ≤ ey))).map
            PageWord.txt).isEmpty then []
          else [pyJoin " " ((p5.words.filter (fun w => decide (w.pos ≤ ey))).map
            PageWord.txt)]) ≠ [] := by
    intro hnil
    rcases List.append_eq_nil.mp hnil with ⟨hnil1, hnil5⟩
    rcases List.append_eq_nil.mp hnil1 with ⟨hnil0, hnil4⟩
    rcases List.append_eq_nil.mp hnil0 with ⟨-, hnil3⟩
    exact hspan (by rw [hGnil _ hnil3, hGnil _ hnil4, hGnil _ hnil5]; simp)
  rw [if_neg (fun hie => hcontent_ne ((listIsEmpty_iff _).mp hie))]
  have hniceJ : niceStr (pyJoin " "
      (((([] : List String) ++
          (if ((p3.words.filter (fun w => decide (sy ≤ w.pos))).map
              PageWord.txt).isEmpty then []
            else [pyJoin " " ((p3.words.filter (fun w => decide (sy ≤ w.pos))).map
              PageWord.txt)])) ++
        (if (p4.words.map PageWord.txt).isEmpty then []
          else [pyJoin " " (p4.words.map PageWord.txt)])) ++
        (if ((p5.words.filter (fun w => decide (w.pos ≤ ey))).map
            PageWord.txt).isEmpty then []
          else [pyJoin " " ((p5.words.filter (fun w => decide (w.pos ≤ ey))).map
            PageWord.txt)]))) := by
    apply nice_join hcontent_ne
    intro s hsmem
    simp only [List.nil_append, List.mem_append] at hsmem
    rcases hsmem with (hsmem | hsmem) | hsmem
    · exact hGnice _ hws3 s hsmem
    · exact hGnice _ hws4 s hsmem
    · exact hGnice _ hws5 s hsmem
  rw [collapse_id_of_nice hniceJ, strip_id_of_nice hniceJ]
  exact join_three_groups _ _ _

/-- C3 witness: the amended boundary-slicing theorem applied to a concrete
five-page document.  The page-3 word "Early" at position 10 lies above the
target heading (position 20) and is dropped; the page-5 word "Late" at
position 60 lies below the next heading (position 40) and is dropped; the
result is exactly the in-span words "Delta", "Mid" and "End". -/
theorem boundary_slicing_span_witness :
    extract_section_content
        [⟨100, []⟩, ⟨100, []⟩, ⟨100, [⟨10, "Early"⟩, ⟨30, "Delta"⟩]⟩,
          ⟨100, [⟨50, "Mid"⟩]⟩, ⟨100, [⟨20, "End"⟩, ⟨60, "Late"⟩]⟩]
        ⟨"H1", "Start", 3, some 20⟩
        [⟨"H1", "Start", 3, some 20⟩, ⟨"H1", "Finish", 5, some 40⟩] =
      "Delta Mid End" :=
  (boundary_slicing_span
      ⟨100, []⟩ ⟨100, []⟩ ⟨100, [⟨10, "Early"⟩, ⟨30, "Delta"⟩]⟩
      ⟨100, [⟨50, "Mid"⟩]⟩ ⟨100, [⟨20, "End"⟩, ⟨60, "Late"⟩]⟩
      ⟨"H1", "Start", 3, some 20⟩ ⟨"H1", "Finish", 5, some 40⟩
      [⟨"H1", "Start", 3, some 20⟩, ⟨"H1", "Finish", 5, some 40⟩] 0 20 40
      (by decide) (by decide) rfl rfl rfl rfl
      (by decide) (by decide) (by decide) (by decide) (by decide)
      (by decide) (by decide)).trans (by decide)

end Extractor
